import Mathlib

/-!
# Verification of the lula-lang front end

Shallow embedding of the lexer (`src/lexer.rs`), parser (`src/parser.rs`),
evaluator (`src/expr.rs`, `src/statement.rs`) and driver loop (`src/main.rs`)
of the lula-lang interpreter, together with theorems settling the frozen
claims about its specification.

Modelling conventions:
* Source text is a `List Char` scanned by a cursor, matching the Rust
  `chars().nth(cursor)` access pattern; sources are taken to be ASCII so
  that the byte length used by `reached_end` coincides with the char count.
* Rust `f64` is modelled by `Rat`; every number appearing in a claim is a
  small integer, exactly representable in both.
* `eprintln!` diagnostics are modelled as ghost transcript lists
  (`LexDiag`, `ParseDiag`, `TypeDiag`) carried through the state, one entry
  per `display_error` / `display_general_error` call.
* Rust panics (`unreachable!()`, index out of bounds, debug-mode unsigned
  underflow) are modelled as `Except.error` with an `RtPanic` marker.
* Unbounded loops of the parser are fuel-indexed; running out of fuel is
  the distinguished marker `RtPanic.fuelOut`, never confused with a panic
  of the Rust program.
-/

/-- Decidable equality for `Except`, used to evaluate concrete runs of the
embedded interpreter inside proofs. -/
instance {ε α : Type _} [DecidableEq ε] [DecidableEq α] : DecidableEq (Except ε α) :=
  fun x y =>
    match x, y with
    | .error a, .error b =>
      if h : a = b then .isTrue (by rw [h]) else .isFalse (by intro he; cases he; exact h rfl)
    | .ok a, .ok b =>
      if h : a = b then .isTrue (by rw [h]) else .isFalse (by intro he; cases he; exact h rfl)
    | .error _, .ok _ => .isFalse (by intro he; cases he)
    | .ok _, .error _ => .isFalse (by intro he; cases he)

/-- `token.rs`: `Position(pub usize, pub usize)` — 0-based line and column. -/
structure Position where
  line : Nat
  col : Nat
deriving DecidableEq, Repr

/-- `token.rs`: the `Literal` enum. `f64` is modelled by `Rat`. -/
inductive Literal where
  | identifier : String → Literal
  | str : String → Literal
  | number : Rat → Literal
  | bool : Bool → Literal
  | nil : Literal
deriving DecidableEq, Repr

/-- `token.rs`: the `TokenKind` enum, constructor for constructor. -/
inductive TokenKind where
  | leftParen | rightParen | leftBrace | rightBrace | leftBracket | rightBracket
  | plus | minus | star | slash | percent
  | equal | equalEqual | bang | bangEqual | less | lessEqual | greater | greaterEqual
  | literal : Literal → TokenKind
  | ifKw | elifKw | elseKw
  | andKw | orKw
  | funcKw | letKw
  | loopKw | breakKw | continueKw
  | printKw
  | newline | eof
deriving DecidableEq, Repr

/-- `token.rs`: `Token { kind, position }`. -/
structure Token where
  kind : TokenKind
  position : Position
deriving DecidableEq, Repr

/-- `token.rs`: the lazily-built `KEYWORDS` table, as a pure lookup. -/
def keywords (s : String) : Option TokenKind :=
  match s with
  | "true" => some (.literal (.bool true))
  | "false" => some (.literal (.bool false))
  | "nil" => some (.literal .nil)
  | "if" => some .ifKw
  | "elif" => some .elifKw
  | "else" => some .elseKw
  | "and" => some .andKw
  | "or" => some .orKw
  | "func" => some .funcKw
  | "let" => some .letKw
  | "loop" => some .loopKw
  | "break" => some .breakKw
  | "continue" => some .continueKw
  | "print" => some .printKw
  | _ => none

/-- One entry of the lexer's stderr transcript: each constructor corresponds
to one `display_error` call site in `lexer.rs`. -/
inductive LexDiag where
  | failedParseNumber : String → Position → LexDiag
  | unrecognizedEscape : Char → Position → LexDiag
  | newlineInString : Position → LexDiag
  | unterminatedString : Position → LexDiag
  | unmatchedRightParen : Position → LexDiag
  | unmatchedRightBrace : Position → LexDiag
  | unmatchedRightBracket : Position → LexDiag
  | unmatchedLeftParen : Position → LexDiag
  | unmatchedLeftBrace : Position → LexDiag
  | unmatchedLeftBracket : Position → LexDiag
  | unrecognizedSymbol : Char → Position → LexDiag
deriving DecidableEq, Repr

/-- The three delimiter families tracked by the lexer's stacks. -/
inductive DelimKind where
  | paren | brace | bracket
deriving DecidableEq, Repr

/-- Ghost record of one delimiter character processed by `collect_symbol`,
in scan order; `opener` for `( { [`, `closer` for `) } ]`. -/
inductive DelimEvent where
  | opener : DelimKind → Position → DelimEvent
  | closer : DelimKind → Position → DelimEvent
deriving DecidableEq, Repr

/-- `lexer.rs`: the `Lexer` struct. The cursor into the source is modelled
by the remaining suffix `rest` (for the ASCII sources in scope,
`reached_end`'s byte comparison `source.len() <= cursor` is `rest = []`
and `peek` is the head of `rest`, `'\0'` past the end). `diags` is the
ghost stderr transcript and `events` the ghost list of processed
delimiter characters; neither influences control flow. -/
structure LexState where
  rest : List Char
  pos : Position
  parenStack : List Position
  braceStack : List Position
  bracketStack : List Position
  diags : List LexDiag
  events : List DelimEvent
deriving DecidableEq, Repr

/-- Position update of `Lexer::advance` for one consumed character:
`'\n'` resets the column and bumps the line, anything else bumps the
column. -/
def posAdv (pos : Position) (c : Char) : Position :=
  if c = '\n' then ⟨pos.line + 1, 0⟩ else ⟨pos.line, pos.col + 1⟩

namespace LexState

/-- `Lexer::new`. -/
def init (source : List Char) : LexState :=
  { rest := source, pos := ⟨0, 0⟩
    parenStack := [], braceStack := [], bracketStack := []
    diags := [], events := [] }

/-- `Lexer::reached_end`: `source.len() <= cursor`. -/
def reached_end (st : LexState) : Bool :=
  st.rest = []

/-- `Lexer::peek`: `chars().nth(cursor).unwrap_or('\0')`. -/
def peekc (st : LexState) : Char :=
  st.rest.headD '\x00'

/-- `display_error`: append one entry to the stderr transcript. -/
def emit (st : LexState) (d : LexDiag) : LexState :=
  { st with diags := st.diags ++ [d] }

/-- Ghost: record a delimiter occurrence. -/
def recordEvent (st : LexState) (e : DelimEvent) : LexState :=
  { st with events := st.events ++ [e] }

/-- `Lexer::advance`: update the position from the peeked character, move
past it, return it. Past the end the cursor keeps moving in Rust while
`peek` stays `'\0'`; here `rest` stays `[]`, which is observationally the
same. -/
def advance (st : LexState) : Char × LexState :=
  match st.rest with
  | c :: tail => (c, { st with rest := tail, pos := posAdv st.pos c })
  | [] => ('\x00', { st with pos := posAdv st.pos '\x00' })

@[simp] theorem advance_parenStack (st : LexState) :
    (st.advance).2.parenStack = st.parenStack := by
  unfold advance; cases st.rest <;> rfl
@[simp] theorem advance_braceStack (st : LexState) :
    (st.advance).2.braceStack = st.braceStack := by
  unfold advance; cases st.rest <;> rfl
@[simp] theorem advance_bracketStack (st : LexState) :
    (st.advance).2.bracketStack = st.bracketStack := by
  unfold advance; cases st.rest <;> rfl
@[simp] theorem advance_diags (st : LexState) : (st.advance).2.diags = st.diags := by
  unfold advance; cases st.rest <;> rfl
@[simp] theorem advance_events (st : LexState) : (st.advance).2.events = st.events := by
  unfold advance; cases st.rest <;> rfl
@[simp] theorem advance_fst (st : LexState) : (st.advance).1 = st.peekc := by
  unfold advance peekc; cases st.rest <;> rfl

end LexState

/-- Rust `char::is_ascii_whitespace`: space, tab, newline, form feed,
carriage return. -/
def isAsciiWhitespace (c : Char) : Bool :=
  c = ' ' ∨ c = '\t' ∨ c = '\n' ∨ c = '\x0c' ∨ c = '\r'

/-- Rust `char::is_ascii_alphabetic`. -/
def isAsciiAlpha (c : Char) : Bool :=
  ('a' ≤ c ∧ c ≤ 'z') ∨ ('A' ≤ c ∧ c ≤ 'Z')

/-- Rust `char::is_ascii_digit`. -/
def isAsciiDigit (c : Char) : Bool :=
  '0' ≤ c ∧ c ≤ '9'

/-- The scanning recursion of `Lexer::skip_whitespace` over the remaining
characters and position. -/
def skip_ws_go : List Char → Position → List Char × Position
  | [], pos => ([], pos)
  | c :: rest, pos =>
    if isAsciiWhitespace c ∧ c ≠ '\n' then skip_ws_go rest (posAdv pos c)
    else (c :: rest, pos)

/-- `Lexer::skip_whitespace`: skip ASCII whitespace other than `'\n'`. -/
def skip_whitespace (st : LexState) : LexState :=
  { st with rest := (skip_ws_go st.rest st.pos).1, pos := (skip_ws_go st.rest st.pos).2 }

/-- The scanning recursion of `Lexer::skip_line`. -/
def skip_line_go : List Char → Position → List Char × Position
  | [], pos => ([], pos)
  | c :: rest, pos =>
    if c ≠ '\n' then skip_line_go rest (posAdv pos c)
    else (c :: rest, pos)

/-- `Lexer::skip_line`: skip up to (not including) the next newline. -/
def skip_line (st : LexState) : LexState :=
  { st with rest := (skip_line_go st.rest st.pos).1, pos := (skip_line_go st.rest st.pos).2 }

/-- Character allowed to continue an identifier lexeme
(`is_ascii_alphabetic || is_ascii_digit || '_'`). -/
def isIdentChar (c : Char) : Bool :=
  isAsciiAlpha c || isAsciiDigit c || c = '_'

/-- The accumulation recursion of `Lexer::collect_identifier`. -/
def collect_ident_go : List Char → Position → String → String × List Char × Position
  | [], pos, acc => (acc, [], pos)
  | c :: rest, pos, acc =>
    if isIdentChar c then collect_ident_go rest (posAdv pos c) (acc.push c)
    else (acc, c :: rest, pos)

/-- `Lexer::collect_identifier`: accumulate the lexeme, then look it up in
the keyword table; a miss yields `Literal::Identifier`. -/
def collect_identifier (st : LexState) : Option Token × LexState :=
  let start_pos := st.pos
  let r := collect_ident_go st.rest st.pos ""
  let token_kind := match keywords r.1 with
    | some t => t
    | none => TokenKind.literal (.identifier r.1)
  (some ⟨token_kind, start_pos⟩, { st with rest := r.2.1, pos := r.2.2 })

/-- Numeric value of a decimal digit list (most significant first). -/
def digitsToNat (ds : List Char) : Nat :=
  ds.foldl (fun a c => a * 10 + (c.toNat - 48)) 0

/-- Rust `str::parse::<f64>()`, restricted to the lexeme shapes
`collect_number` can produce (digits with at most one `.`, starting with a
digit); value in `Rat` instead of IEEE double. A lexeme of this shape
always parses, matching Rust; malformed shapes give `none` (`Err`). -/
def parseDecimal (cs : List Char) : Option Rat :=
  let intPart := cs.takeWhile (fun c => isAsciiDigit c)
  let rest := cs.dropWhile (fun c => isAsciiDigit c)
  if intPart = [] then none
  else
    match rest with
    | [] => some ((digitsToNat intPart : Nat) : Rat)
    | '.' :: frac =>
      if frac.all (fun c => isAsciiDigit c) then
        some (((digitsToNat intPart : Nat) : Rat) +
          ((digitsToNat frac : Nat) : Rat) / ((10 : Rat) ^ frac.length))
      else none
    | _ => none

/-- The accumulation recursion of `Lexer::collect_number`: digits with at
most one period (`is_ascii_digit() || peek == '.' && !has_period`). -/
def collect_number_go : List Char → Position → String → Bool → String × List Char × Position
  | [], pos, acc, _ => (acc, [], pos)
  | c :: rest, pos, acc, has_period =>
    if isAsciiDigit c ∨ (c = '.' ∧ ¬ has_period) then
      collect_number_go rest (posAdv pos c) (acc.push c)
        (if c = '.' then true else has_period)
    else (acc, c :: rest, pos)

/-- `Lexer::collect_number`: accumulate the lexeme and parse it; a parse
failure records an error and omits the token. -/
def collect_number (st : LexState) : Option Token × LexState :=
  let start_pos := st.pos
  let r := collect_number_go st.rest st.pos "" false
  let st' := { st with rest := r.2.1, pos := r.2.2 }
  match parseDecimal r.1.toList with
  | some v => (some ⟨.literal (.number v), start_pos⟩, st')
  | none => (none, st'.emit (.failedParseNumber r.1 start_pos))

/-- Result of the string-scanning recursion: the accumulated lexeme when
the loop stopped (at a closing quote or end of input), or the diagnostic
of an early error return. -/
inductive StrRes where
  | stop : String → StrRes
  | bad : LexDiag → StrRes
deriving DecidableEq, Repr

/-- The scanning recursion of `Lexer::collect_string`, after the leading
quote has been consumed; `esc_pos` is the position of the pending
backslash. -/
def collect_string_go : List Char → Position → String → Bool → Position →
    StrRes × List Char × Position
  | [], pos, acc, _, _ => (.stop acc, [], pos)
  | c :: rest, pos, acc, escaped, esc_pos =>
    if c = '"' then (.stop acc, c :: rest, pos)
    else
      let curr_pos := pos
      let pos' := posAdv pos c
      if escaped then
        match c with
        | '\\' => collect_string_go rest pos' (acc.push '\\') false esc_pos
        | '\n' => collect_string_go rest pos' (acc.push '\n') false esc_pos
        | '"' => collect_string_go rest pos' (acc.push '"') false esc_pos
        | 'n' => collect_string_go rest pos' (acc.push '\n') false esc_pos
        | 'r' => collect_string_go rest pos' (acc.push '\r') false esc_pos
        | 't' => collect_string_go rest pos' (acc.push '\t') false esc_pos
        | '0' => collect_string_go rest pos' (acc.push '\x00') false esc_pos
        | _ => (.bad (.unrecognizedEscape c esc_pos), rest, pos')
      else if c = '\\' then
        collect_string_go rest pos' acc true curr_pos
      else if c = '\n' then
        (.bad (.newlineInString curr_pos), rest, pos')
      else
        collect_string_go rest pos' (acc.push c) escaped esc_pos

/-- `Lexer::collect_string`: consume the opening quote, scan the body,
then require the closing quote; errors record a diagnostic and omit the
token. -/
def collect_string (st : LexState) : Option Token × LexState :=
  let start_pos := st.pos
  let st1 := (st.advance).2
  match collect_string_go st1.rest st1.pos "" false start_pos with
  | (.bad d, r, p) => (none, ({ st1 with rest := r, pos := p }).emit d)
  | (.stop lexemme, r, p) =>
    let st2 := { st1 with rest := r, pos := p }
    if st2.reached_end then
      (none, st2.emit (.unterminatedString start_pos))
    else
      let st3 := (st2.advance).2
      (some ⟨.literal (.str lexemme), start_pos⟩, st3)

/-- `Lexer::collect_symbol`: one- and two-character operator and delimiter
tokens, delimiter stack maintenance, `'\0'` past end-of-input as `Eof`,
unrecognized characters as errors. -/
def collect_symbol (st : LexState) : Option Token × LexState :=
  let start_pos := st.pos
  let c := (st.advance).1
  let st1 := (st.advance).2
  match c with
  | '(' =>
    let st2 := { st1 with parenStack := start_pos :: st1.parenStack }
    (some ⟨.leftParen, start_pos⟩, st2.recordEvent (.opener .paren start_pos))
  | ')' =>
    let st2 := st1.recordEvent (.closer .paren start_pos)
    (match st2.parenStack with
     | _ :: tail => (some ⟨.rightParen, start_pos⟩, { st2 with parenStack := tail })
     | [] => (none, st2.emit (.unmatchedRightParen start_pos)))
  | '{' =>
    let st2 := { st1 with braceStack := start_pos :: st1.braceStack }
    (some ⟨.leftBrace, start_pos⟩, st2.recordEvent (.opener .brace start_pos))
  | '}' =>
    let st2 := st1.recordEvent (.closer .brace start_pos)
    (match st2.braceStack with
     | _ :: tail => (some ⟨.rightBrace, start_pos⟩, { st2 with braceStack := tail })
     | [] => (none, st2.emit (.unmatchedRightBrace start_pos)))
  | '[' =>
    let st2 := { st1 with bracketStack := start_pos :: st1.bracketStack }
    (some ⟨.leftBracket, start_pos⟩, st2.recordEvent (.opener .bracket start_pos))
  | ']' =>
    let st2 := st1.recordEvent (.closer .bracket start_pos)
    (match st2.bracketStack with
     | _ :: tail => (some ⟨.rightBracket, start_pos⟩, { st2 with bracketStack := tail })
     | [] => (none, st2.emit (.unmatchedRightBracket start_pos)))
  | '+' => (some ⟨.plus, start_pos⟩, st1)
  | '-' => (some ⟨.minus, start_pos⟩, st1)
  | '*' => (some ⟨.star, start_pos⟩, st1)
  | '/' => (some ⟨.slash, start_pos⟩, st1)
  | '%' => (some ⟨.percent, start_pos⟩, st1)
  | '=' =>
    if st1.peekc = '=' then (some ⟨.equalEqual, start_pos⟩, (st1.advance).2)
    else (some ⟨.equal, start_pos⟩, st1)
  | '!' =>
    if st1.peekc = '=' then (some ⟨.bangEqual, start_pos⟩, (st1.advance).2)
    else (some ⟨.bang, start_pos⟩, st1)
  | '<' =>
    if st1.peekc = '=' then (some ⟨.lessEqual, start_pos⟩, (st1.advance).2)
    else (some ⟨.less, start_pos⟩, st1)
  | '>' =>
    if st1.peekc = '=' then (some ⟨.greaterEqual, start_pos⟩, (st1.advance).2)
    else (some ⟨.greater, start_pos⟩, st1)
  | '\x00' => (some ⟨.eof, start_pos⟩, st1)
  | _ => (none, st1.emit (.unrecognizedSymbol c start_pos))

/-- The token kinds after which a `'\n'` becomes a significant `Newline`
token (`lexer.rs`, `collect_newline`). -/
def significantAfter : TokenKind → Bool
  | .rightParen | .rightBracket | .literal _ | .breakKw | .continueKw => true
  | _ => false

/-- `Lexer::collect_newline`: consume the `'\n'` and emit a `Newline`
token if and only if the previous token's kind allows it. -/
def collect_newline (st : LexState) (prev_token : Option Token) : Option Token × LexState :=
  let start_pos := st.pos
  let st1 := (st.advance).2
  match prev_token with
  | some t => if significantAfter t.kind then (some ⟨.newline, start_pos⟩, st1) else (none, st1)
  | none => (none, st1)

/-- Outcome of one iteration of the `collect_tokens` loop body:
`token` pushes a token, `err` sets `contains_error`, `skip` is the
`continue` taken when a newline is suppressed. -/
inductive StepRes where
  | token : Token → StepRes
  | err : StepRes
  | skip : StepRes
deriving DecidableEq, Repr

/-- One iteration of the `collect_tokens` `while` body: skip whitespace,
skip a `#` comment line, then dispatch on the peeked character exactly as
the Rust `match c` does. `toks` is the token vector built so far (consulted
only for `tokens.last()` in the newline branch). -/
def lexStep (st : LexState) (toks : List Token) : StepRes × LexState :=
  let st1 := skip_whitespace st
  let st2 := if st1.peekc = '#' then skip_whitespace (skip_line st1) else st1
  let c := st2.peekc
  if isAsciiAlpha c then
    match collect_identifier st2 with
    | (some t, st3) => (.token t, st3)
    | (none, st3) => (.err, st3)
  else if isAsciiDigit c then
    match collect_number st2 with
    | (some t, st3) => (.token t, st3)
    | (none, st3) => (.err, st3)
  else if c = '"' then
    match collect_string st2 with
    | (some t, st3) => (.token t, st3)
    | (none, st3) => (.err, st3)
  else if c = '\n' then
    match collect_newline st2 toks.getLast? with
    | (some t, st3) => (.token t, st3)
    | (none, st3) => (.skip, st3)
  else
    match collect_symbol st2 with
    | (some t, st3) => (.token t, st3)
    | (none, st3) => (.err, st3)

/-- The post-loop reporting of `collect_tokens`: every position left on an
opener stack is reported as an unmatched opening delimiter, in insertion
order (`Vec` iteration is oldest-first; the stacks here are cons-lists, so
oldest-first is the reverse). Returns the updated state and whether any
stack was non-empty. -/
def reportUnmatched (st : LexState) : LexState × Bool :=
  let st1 := { st with diags := st.diags
      ++ st.parenStack.reverse.map LexDiag.unmatchedLeftParen
      ++ st.braceStack.reverse.map LexDiag.unmatchedLeftBrace
      ++ st.bracketStack.reverse.map LexDiag.unmatchedLeftBracket }
  (st1, ¬ (st.parenStack = [] ∧ st.braceStack = [] ∧ st.bracketStack = []))

/-- Result of a (fuel-indexed) run of `collect_tokens`: `done` when the
`while` loop exited normally (post-loop reporting applied), `fuelOut` when
the fuel bound was reached first. Both carry the token vector, the
`contains_error` flag, and the lexer state. -/
inductive LexOut where
  | done : List Token → Bool → LexState → LexOut
  | fuelOut : List Token → Bool → LexState → LexOut
deriving DecidableEq, Repr

namespace LexOut
def toks : LexOut → List Token | .done t _ _ => t | .fuelOut t _ _ => t
def errFlag : LexOut → Bool | .done _ e _ => e | .fuelOut _ e _ => e
def state : LexOut → LexState | .done _ _ s => s | .fuelOut _ _ s => s
end LexOut

/-- The `collect_tokens` loop, fuel-indexed. Each iteration with
`¬ reached_end` advances the cursor by at least one, so
`source.length + 1` fuel always completes the scan. -/
def collect_tokens_loop : Nat → LexState → List Token → Bool → LexOut
  | 0, st, toks, err => .fuelOut toks err st
  | fuel + 1, st, toks, err =>
    if st.reached_end then
      let (st1, found) := reportUnmatched st
      .done toks (err || found) st1
    else
      match lexStep st toks with
      | (.token t, st') => collect_tokens_loop fuel st' (toks ++ [t]) err
      | (.err, st') => collect_tokens_loop fuel st' toks true
      | (.skip, st') => collect_tokens_loop fuel st' toks err

/-- `Lexer::collect_tokens` from a fresh lexer: `some tokens` when no error
was recorded, `none` otherwise; paired with the stderr transcript. -/
def collect_tokens (source : List Char) : Option (List Token) × List LexDiag :=
  match collect_tokens_loop (source.length + 1) (LexState.init source) [] false with
  | .done toks err st => (if err then none else some toks, st.diags)
  | .fuelOut _ _ st => (none, st.diags)

/-- Lex a (ASCII) string. -/
def lex (s : String) : Option (List Token) × List LexDiag :=
  collect_tokens s.toList

/-- The full final state of lexing a string (including ghost fields). -/
def lexRun (s : String) : LexOut :=
  collect_tokens_loop (s.toList.length + 1) (LexState.init s.toList) [] false

/-! ## Parser (`parser.rs`) -/

/-- Rust panics of the interpreter, plus the distinguished `fuelOut`
marker of the fuel-indexed embedding (not a panic of the program).
`usizeUnderflow` is debug-mode `usize` subtraction overflow;
`indexOutOfBounds` is a `Vec` index panic; `unreachableReached` is
`unreachable!()`. -/
inductive RtPanic where
  | indexOutOfBounds
  | usizeUnderflow
  | unreachableReached
  | fuelOut
deriving DecidableEq, Repr

/-- One entry of the parser's stderr transcript; one constructor per
`display_error` call site in `parser.rs` (expected kind, found kind,
position). -/
inductive ParseDiag where
  | expectedFound : TokenKind → TokenKind → Position → ParseDiag
  | noComplement : TokenKind → Position → ParseDiag
  | expectedClosing : TokenKind → TokenKind → Position → ParseDiag
deriving DecidableEq, Repr

/-- `expr.rs`: the `Expr` AST. -/
inductive Expr where
  | literal : Literal → Expr
  | unary : Token → Expr → Expr
  | binary : Expr → Token → Expr → Expr
  | grouping : Token → Expr → Token → Expr
deriving DecidableEq, Repr

/-- `statement.rs`: the `Statement` AST. -/
inductive Statement where
  | print : Expr → Statement
  | varDecl : String → Option Expr → Statement
  | expr : Expr → Statement
deriving DecidableEq, Repr

/-- `parser.rs`: the `Parser` struct (`diags` is the ghost stderr
transcript). -/
structure PState where
  tokens : List Token
  cursor : Nat
  diags : List ParseDiag
deriving DecidableEq, Repr

namespace PState

/-- `display_error`. -/
def emit (p : PState) (d : ParseDiag) : PState :=
  { p with diags := p.diags ++ [d] }

/-- `Parser::reached_end`: `cursor >= tokens.len() - 1`. The `usize`
subtraction underflows (debug-mode panic) when the token vector is
empty. -/
def reached_end (p : PState) : Except RtPanic Bool :=
  match p.tokens.length with
  | 0 => .error .usizeUnderflow
  | n + 1 => .ok (n ≤ p.cursor)

/-- `Parser::peek`: `tokens[cursor]`, panicking out of bounds. -/
def peekT (p : PState) : Except RtPanic Token :=
  match p.tokens[p.cursor]? with
  | some t => .ok t
  | none => .error .indexOutOfBounds

/-- `Parser::advance`: bump the cursor and return `tokens[cursor - 1]`
(same index as the pre-bump `peek`), panicking out of bounds. -/
def advanceT (p : PState) : Except RtPanic (Token × PState) :=
  match p.tokens[p.cursor]? with
  | some t => .ok (t, { p with cursor := p.cursor + 1 })
  | none => .error .indexOutOfBounds

/-- `Parser::is_match`. -/
def is_match (p : PState) (kind : TokenKind) : Except RtPanic Bool :=
  match p.peekT with
  | .error e => .error e
  | .ok t => .ok (t.kind = kind)

/-- `Parser::consume`: advance on a kind match, otherwise record one
diagnostic and fail. -/
def consume (p : PState) (kind : TokenKind) : Except RtPanic (Option Token × PState) :=
  match p.peekT with
  | .error e => .error e
  | .ok t =>
    if t.kind = kind then
      match p.advanceT with
      | .error e => .error e
      | .ok (t', p') => .ok (some t', p')
    else
      .ok (none, p.emit (.expectedFound kind t.kind t.position))

end PState

/-- Complementary closing kind of an opening delimiter kind
(`Parser::expect_closing`'s first match). -/
def complementOf : TokenKind → Option TokenKind
  | .leftParen => some .rightParen
  | .leftBrace => some .rightBrace
  | .leftBracket => some .rightBracket
  | _ => none

/-- `Parser::expect_closing`: advance unconditionally, then require the
complementary closer of `kind`. -/
def expect_closing (p : PState) (kind : TokenKind) : Except RtPanic (Option Token × PState) :=
  match p.advanceT with
  | .error e => .error e
  | .ok (tok, p1) =>
    match complementOf kind with
    | none => .ok (none, p1.emit (.noComplement tok.kind tok.position))
    | some expect =>
      if tok.kind = expect then .ok (some tok, p1)
      else .ok (none, p1.emit (.expectedClosing expect tok.kind tok.position))

mutual

/-- `Parser::parse_primary`: a literal token, or an opener followed by an
expression and the matching closer; any other token fails silently
(`_ => None`, no diagnostic). -/
def parse_primary : Nat → PState → Except RtPanic (Option Expr × PState)
  | 0, _ => .error .fuelOut
  | fuel + 1, p =>
    match p.advanceT with
    | .error e => .error e
    | .ok (tok, p1) =>
      match tok.kind with
      | .literal l => .ok (some (.literal l), p1)
      | .leftParen | .leftBrace | .leftBracket =>
        (match parse_expr fuel p1 with
         | .error e => .error e
         | .ok (none, p2) => .ok (none, p2)
         | .ok (some e, p2) =>
           match expect_closing p2 tok.kind with
           | .error er => .error er
           | .ok (none, p3) => .ok (none, p3)
           | .ok (some rhs, p3) => .ok (some (.grouping tok e rhs), p3))
      | _ => .ok (none, p1)

/-- `Parser::parse_unary`: right-recursive stacked prefix `!` / `-`
(the Rust `while` body always returns), else `parse_primary`. -/
def parse_unary : Nat → PState → Except RtPanic (Option Expr × PState)
  | 0, _ => .error .fuelOut
  | fuel + 1, p =>
    match p.peekT with
    | .error e => .error e
    | .ok t =>
      if t.kind = .bang ∨ t.kind = .minus then
        match p.advanceT with
        | .error e => .error e
        | .ok (op, p1) =>
          match parse_unary fuel p1 with
          | .error e => .error e
          | .ok (none, p2) => .ok (none, p2)
          | .ok (some rhs, p2) => .ok (some (.unary op rhs), p2)
      else parse_primary fuel p

/-- The left-fold loop of `Parser::parse_factor` (`* / %`). -/
def parse_factor_loop : Nat → Expr → PState → Except RtPanic (Option Expr × PState)
  | 0, _, _ => .error .fuelOut
  | fuel + 1, e, p =>
    match p.peekT with
    | .error er => .error er
    | .ok t =>
      if t.kind = .star ∨ t.kind = .slash ∨ t.kind = .percent then
        match p.advanceT with
        | .error er => .error er
        | .ok (op, p1) =>
          match parse_unary fuel p1 with
          | .error er => .error er
          | .ok (none, p2) => .ok (none, p2)
          | .ok (some rhs, p2) => parse_factor_loop fuel (.binary e op rhs) p2
      else .ok (some e, p)

/-- `Parser::parse_factor`. -/
def parse_factor : Nat → PState → Except RtPanic (Option Expr × PState)
  | 0, _ => .error .fuelOut
  | fuel + 1, p =>
    match parse_unary fuel p with
    | .error e => .error e
    | .ok (none, p1) => .ok (none, p1)
    | .ok (some e, p1) => parse_factor_loop fuel e p1

/-- The left-fold loop of `Parser::parse_term` (`+ -`). -/
def parse_term_loop : Nat → Expr → PState → Except RtPanic (Option Expr × PState)
  | 0, _, _ => .error .fuelOut
  | fuel + 1, e, p =>
    match p.peekT with
    | .error er => .error er
    | .ok t =>
      if t.kind = .plus ∨ t.kind = .minus then
        match p.advanceT with
        | .error er => .error er
        | .ok (op, p1) =>
          match parse_factor fuel p1 with
          | .error er => .error er
          | .ok (none, p2) => .ok (none, p2)
          | .ok (some rhs, p2) => parse_term_loop fuel (.binary e op rhs) p2
      else .ok (some e, p)

/-- `Parser::parse_term`. -/
def parse_term : Nat → PState → Except RtPanic (Option Expr × PState)
  | 0, _ => .error .fuelOut
  | fuel + 1, p =>
    match parse_factor fuel p with
    | .error e => .error e
    | .ok (none, p1) => .ok (none, p1)
    | .ok (some e, p1) => parse_term_loop fuel e p1

/-- The left-fold loop of `Parser::parse_comparison` (`< <= > >=`). -/
def parse_comparison_loop : Nat → Expr → PState → Except RtPanic (Option Expr × PState)
  | 0, _, _ => .error .fuelOut
  | fuel + 1, e, p =>
    match p.peekT with
    | .error er => .error er
    | .ok t =>
      if t.kind = .less ∨ t.kind = .lessEqual ∨ t.kind = .greater ∨ t.kind = .greaterEqual then
        match p.advanceT with
        | .error er => .error er
        | .ok (op, p1) =>
          match parse_term fuel p1 with
          | .error er => .error er
          | .ok (none, p2) => .ok (none, p2)
          | .ok (some rhs, p2) => parse_comparison_loop fuel (.binary e op rhs) p2
      else .ok (some e, p)

/-- `Parser::parse_comparison`. -/
def parse_comparison : Nat → PState → Except RtPanic (Option Expr × PState)
  | 0, _ => .error .fuelOut
  | fuel + 1, p =>
    match parse_term fuel p with
    | .error e => .error e
    | .ok (none, p1) => .ok (none, p1)
    | .ok (some e, p1) => parse_comparison_loop fuel e p1

/-- The left-fold loop of `Parser::parse_equality` (`== !=`). -/
def parse_equality_loop : Nat → Expr → PState → Except RtPanic (Option Expr × PState)
  | 0, _, _ => .error .fuelOut
  | fuel + 1, e, p =>
    match p.peekT with
    | .error er => .error er
    | .ok t =>
      if t.kind = .equalEqual ∨ t.kind = .bangEqual then
        match p.advanceT with
        | .error er => .error er
        | .ok (op, p1) =>
          match parse_comparison fuel p1 with
          | .error er => .error er
          | .ok (none, p2) => .ok (none, p2)
          | .ok (some rhs, p2) => parse_equality_loop fuel (.binary e op rhs) p2
      else .ok (some e, p)

/-- `Parser::parse_equality`. -/
def parse_equality : Nat → PState → Except RtPanic (Option Expr × PState)
  | 0, _ => .error .fuelOut
  | fuel + 1, p =>
    match parse_comparison fuel p with
    | .error e => .error e
    | .ok (none, p1) => .ok (none, p1)
    | .ok (some e, p1) => parse_equality_loop fuel e p1

/-- The left-fold loop of `Parser::parse_and`. -/
def parse_and_loop : Nat → Expr → PState → Except RtPanic (Option Expr × PState)
  | 0, _, _ => .error .fuelOut
  | fuel + 1, e, p =>
    match p.peekT with
    | .error er => .error er
    | .ok t =>
      if t.kind = .andKw then
        match p.advanceT with
        | .error er => .error er
        | .ok (op, p1) =>
          match parse_equality fuel p1 with
          | .error er => .error er
          | .ok (none, p2) => .ok (none, p2)
          | .ok (some rhs, p2) => parse_and_loop fuel (.binary e op rhs) p2
      else .ok (some e, p)

/-- `Parser::parse_and`. -/
def parse_and : Nat → PState → Except RtPanic (Option Expr × PState)
  | 0, _ => .error .fuelOut
  | fuel + 1, p =>
    match parse_equality fuel p with
    | .error e => .error e
    | .ok (none, p1) => .ok (none, p1)
    | .ok (some e, p1) => parse_and_loop fuel e p1

/-- The left-fold loop of `Parser::parse_or`. -/
def parse_or_loop : Nat → Expr → PState → Except RtPanic (Option Expr × PState)
  | 0, _, _ => .error .fuelOut
  | fuel + 1, e, p =>
    match p.peekT with
    | .error er => .error er
    | .ok t =>
      if t.kind = .orKw then
        match p.advanceT with
        | .error er => .error er
        | .ok (op, p1) =>
          match parse_and fuel p1 with
          | .error er => .error er
          | .ok (none, p2) => .ok (none, p2)
          | .ok (some rhs, p2) => parse_or_loop fuel (.binary e op rhs) p2
      else .ok (some e, p)

/-- `Parser::parse_or`. -/
def parse_or : Nat → PState → Except RtPanic (Option Expr × PState)
  | 0, _ => .error .fuelOut
  | fuel + 1, p =>
    match parse_and fuel p with
    | .error e => .error e
    | .ok (none, p1) => .ok (none, p1)
    | .ok (some e, p1) => parse_or_loop fuel e p1

/-- `Parser::parse_expr`: the bottom of the precedence ladder. -/
def parse_expr : Nat → PState → Except RtPanic (Option Expr × PState)
  | 0, _ => .error .fuelOut
  | fuel + 1, p => parse_or fuel p

end

/-- `Parser::parse_print`: `'print' expr NEWLINE`. -/
def parse_print (fuel : Nat) (p : PState) : Except RtPanic (Option Statement × PState) :=
  match p.consume .printKw with
  | .error e => .error e
  | .ok (none, p1) => .ok (none, p1)
  | .ok (some _, p1) =>
    match parse_expr fuel p1 with
    | .error e => .error e
    | .ok (none, p2) => .ok (none, p2)
    | .ok (some value, p2) =>
      match p2.consume .newline with
      | .error e => .error e
      | .ok (none, p3) => .ok (none, p3)
      | .ok (some _, p3) => .ok (some (.print value), p3)

/-- `Parser::parse_statement`: a `print` statement, otherwise a plain
expression statement terminated by `Newline`. -/
def parse_statement (fuel : Nat) (p : PState) : Except RtPanic (Option Statement × PState) :=
  match p.peekT with
  | .error e => .error e
  | .ok t =>
    match t.kind with
    | .printKw => parse_print fuel p
    | _ =>
      match parse_expr fuel p with
      | .error e => .error e
      | .ok (none, p1) => .ok (none, p1)
      | .ok (some value, p1) =>
        match p1.consume .newline with
        | .error e => .error e
        | .ok (none, p2) => .ok (none, p2)
        | .ok (some _, p2) => .ok (some (.expr value), p2)

/-- The `while` loop of `Parser::synchronize`: advance until a `Newline`
is consumed, or a statement-leading keyword or `Eof` is reached without
being consumed. -/
def synchronize_loop : Nat → PState → Except RtPanic PState
  | 0, _ => .error .fuelOut
  | fuel + 1, p =>
    match p.reached_end with
    | .error e => .error e
    | .ok true => .ok p
    | .ok false =>
      match p.peekT with
      | .error e => .error e
      | .ok t =>
        match t.kind with
        | .newline =>
          (match p.advanceT with
           | .error e => .error e
           | .ok (_, p1) => .ok p1)
        | .ifKw | .funcKw | .letKw | .loopKw | .eof => .ok p
        | _ =>
          match p.advanceT with
          | .error e => .error e
          | .ok (_, p1) => synchronize_loop fuel p1

/-- `Parser::synchronize`: advance one token unconditionally (when not at
the end), then scan to a recovery point. -/
def synchronize (fuel : Nat) (p : PState) : Except RtPanic PState :=
  match p.reached_end with
  | .error e => .error e
  | .ok true => synchronize_loop fuel p
  | .ok false =>
    match p.advanceT with
    | .error e => .error e
    | .ok (_, p1) => synchronize_loop fuel p1

/-- The `while` loop of `Parser::collect_statements`; returns the
statement vector (including those recovered after failures) and the
`contains_error` flag. -/
def collect_statements_loop : Nat → PState → Except RtPanic (List Statement × Bool × PState)
  | 0, _ => .error .fuelOut
  | fuel + 1, p =>
    match p.reached_end with
    | .error e => .error e
    | .ok true => .ok ([], false, p)
    | .ok false =>
      match parse_statement fuel p with
      | .error e => .error e
      | .ok (some s, p1) =>
        (match collect_statements_loop fuel p1 with
         | .error e => .error e
         | .ok (rest, err, p2) => .ok (s :: rest, err, p2))
      | .ok (none, p1) =>
        match synchronize fuel p1 with
        | .error e => .error e
        | .ok p2 =>
          match collect_statements_loop fuel p2 with
          | .error e => .error e
          | .ok (rest, _, p3) => .ok (rest, true, p3)

/-- `Parser::collect_statements` from a fresh parser: `some statements`
when no statement failed, `none` otherwise. -/
def collect_statements (fuel : Nat) (tokens : List Token) :
    Except RtPanic (Option (List Statement) × List ParseDiag) :=
  match collect_statements_loop fuel ⟨tokens, 0, []⟩ with
  | .error e => .error e
  | .ok (stmts, err, p) => .ok (if err then none else some stmts, p.diags)

/-- Fuel budget sufficient for every terminating parse of `tokens`. -/
def parseFuel (tokens : List Token) : Nat :=
  (tokens.length + 2) * 32

/-- Parse a token vector with an adequate fuel budget. -/
def parseProgram (tokens : List Token) :
    Except RtPanic (Option (List Statement) × List ParseDiag) :=
  collect_statements (parseFuel tokens) tokens

/-! ## Evaluator (`expr.rs`, `statement.rs`, `main.rs`) -/

/-- One entry of the evaluator's stderr transcript; one constructor per
`display_general_error` call site in `expr.rs` (operator kind, operand
literal(s), operator position). -/
inductive TypeDiag where
  | unaryMismatch : TokenKind → Literal → Position → TypeDiag
  | binaryMismatch : TokenKind → Literal → Literal → Position → TypeDiag
deriving DecidableEq, Repr

/-- Truncation toward zero, the rounding used by Rust's `f64` `%`
(`fmod`), transported to `Rat`. -/
def ratTrunc (q : Rat) : Rat :=
  if 0 ≤ q then (q.floor : Rat) else (q.ceil : Rat)

/-- The operator dispatch of `Expr::evaluate_binary`, applied to two
already-evaluated operand literals. `and` / `or` (and every other
non-operator kind) hit the Rust `_ => unreachable!()` arm. Division and
remainder are `Rat` operations standing in for IEEE semantics (`x / 0`
is `0` here instead of an infinity or NaN). -/
def applyBinary (op : Token) (left_lit right_lit : Literal) :
    Except RtPanic (List TypeDiag × Option Literal) :=
  let mismatch : Except RtPanic (List TypeDiag × Option Literal) :=
    .ok ([.binaryMismatch op.kind left_lit right_lit op.position], none)
  match op.kind with
  | .plus =>
    (match left_lit, right_lit with
     | .number a, .number b => .ok ([], some (.number (a + b)))
     | .str a, .str b => .ok ([], some (.str (a ++ b)))
     | _, _ => mismatch)
  | .minus =>
    (match left_lit, right_lit with
     | .number a, .number b => .ok ([], some (.number (a - b)))
     | _, _ => mismatch)
  | .star =>
    (match left_lit, right_lit with
     | .number a, .number b => .ok ([], some (.number (a * b)))
     | _, _ => mismatch)
  | .slash =>
    (match left_lit, right_lit with
     | .number a, .number b => .ok ([], some (.number (a / b)))
     | _, _ => mismatch)
  | .percent =>
    (match left_lit, right_lit with
     | .number a, .number b => .ok ([], some (.number (a - b * ratTrunc (a / b))))
     | _, _ => mismatch)
  | .less =>
    (match left_lit, right_lit with
     | .number a, .number b => .ok ([], some (.bool (a < b)))
     | _, _ => mismatch)
  | .lessEqual =>
    (match left_lit, right_lit with
     | .number a, .number b => .ok ([], some (.bool (a ≤ b)))
     | _, _ => mismatch)
  | .greater =>
    (match left_lit, right_lit with
     | .number a, .number b => .ok ([], some (.bool (b < a)))
     | _, _ => mismatch)
  | .greaterEqual =>
    (match left_lit, right_lit with
     | .number a, .number b => .ok ([], some (.bool (b ≤ a)))
     | _, _ => mismatch)
  | .equalEqual =>
    (match left_lit, right_lit with
     | .number a, .number b => .ok ([], some (.bool (a = b)))
     | .bool a, .bool b => .ok ([], some (.bool (a = b)))
     | .str a, .str b => .ok ([], some (.bool (a = b)))
     | _, _ => mismatch)
  | .bangEqual =>
    (match left_lit, right_lit with
     | .number a, .number b => .ok ([], some (.bool (a ≠ b)))
     | .bool a, .bool b => .ok ([], some (.bool (a ≠ b)))
     | .str a, .str b => .ok ([], some (.bool (a ≠ b)))
     | _, _ => mismatch)
  | _ => .error .unreachableReached

/-- `Expr::evaluate`: `None` models an already-reported type error (the
transcript entry travels in the first component); `Except.error` models a
panic. The dispatch through `evaluate_literal` / `evaluate_unary` /
`evaluate_binary` / `evaluate_grouping` and their re-matches on `self`
collapse to one structural match, their cross-variant arms being dead. -/
def Expr.evaluate : Expr → Except RtPanic (List TypeDiag × Option Literal)
  | .literal l => .ok ([], some l)
  | .unary op sub =>
    (match sub.evaluate with
     | .error e => .error e
     | .ok (d, none) => .ok (d, none)
     | .ok (d, some lit) =>
       match op.kind with
       | .minus =>
         (match lit with
          | .number v => .ok (d, some (.number (-v)))
          | _ => .ok (d ++ [.unaryMismatch op.kind lit op.position], none))
       | .bang =>
         (match lit with
          | .bool b => .ok (d, some (.bool (!b)))
          | _ => .ok (d ++ [.unaryMismatch op.kind lit op.position], none))
       | _ => .error .unreachableReached)
  | .binary lhs op rhs =>
    (match lhs.evaluate with
     | .error e => .error e
     | .ok (d1, none) => .ok (d1, none)
     | .ok (d1, some left_lit) =>
       match rhs.evaluate with
       | .error e => .error e
       | .ok (d2, none) => .ok (d1 ++ d2, none)
       | .ok (d2, some right_lit) =>
         match applyBinary op left_lit right_lit with
         | .error e => .error e
         | .ok (d3, res) => .ok (d1 ++ d2 ++ d3, res))
  | .grouping _ sub _ => sub.evaluate

/-- `Statement::interpret`: the result carries the type-error transcript,
the values printed to stdout by `Print`, and the Rust return value
(`false` aborts the program). The `Statement::Expr` case is the Rust
catch-all `_ => {}`: nothing is evaluated and `true` is returned.
`VarDecl`'s debug log line is not modelled as stdout output. -/
def Statement.interpret : Statement → Except RtPanic (List TypeDiag × List Literal × Bool)
  | .print e =>
    (match e.evaluate with
     | .error er => .error er
     | .ok (d, some val) => .ok (d, [val], true)
     | .ok (d, none) => .ok (d, [], false))
  | .varDecl _ initializer =>
    (match initializer with
     | some e =>
       (match e.evaluate with
        | .error er => .error er
        | .ok (d, _) => .ok (d, [], true))
     | none => .ok ([], [], true))
  | .expr _ => .ok ([], [], true)

/-- The statement loop of `main`: interpret sequentially, stopping at the
first `false`. The final `Bool` is `true` iff every statement returned
`true`. -/
def runProgram : List Statement → Except RtPanic (List TypeDiag × List Literal × Bool)
  | [] => .ok ([], [], true)
  | s :: rest =>
    match s.interpret with
    | .error e => .error e
    | .ok (d, out, false) => .ok (d, out, false)
    | .ok (d, out, true) =>
      match runProgram rest with
      | .error e => .error e
      | .ok (d', out', ok) => .ok (d ++ d', out ++ out', ok)





/-! ## Shared evaluation facts -/

/-- A successful binary dispatch emits no diagnostics. -/
theorem applyBinary_ok_some_diags_nil (op : Token) (v1 v2 : Literal)
    (d : List TypeDiag) (v : Literal)
    (h : applyBinary op v1 v2 = .ok (d, some v)) : d = [] := by
  unfold applyBinary at h
  split at h <;> (try split at h) <;> simp_all

/-- A successful evaluation emits no diagnostics: every
`display_general_error` in `expr.rs` is immediately followed by `return
None`, and `None` propagates. -/
theorem evaluate_ok_some_diags_nil (e : Expr) (d : List TypeDiag) (v : Literal)
    (h : e.evaluate = .ok (d, some v)) : d = [] := by
  induction e generalizing d v with
  | literal l => simp [Expr.evaluate] at h; exact h.1
  | unary op sub ih =>
    simp only [Expr.evaluate] at h
    rcases hs : sub.evaluate with e1 | ⟨ds, os⟩
    · rw [hs] at h; cases h
    · rw [hs] at h
      rcases os with _ | vs
      · simp at h
      · have hds : ds = [] := ih ds vs hs
        subst hds
        rcases hk : op.kind <;> rw [hk] at h <;> try cases h
        · rcases vs <;> simp_all
        · rcases vs <;> simp_all
  | binary lhs op rhs ihl ihr =>
    simp only [Expr.evaluate] at h
    rcases hl : lhs.evaluate with e1 | ⟨d1, o1⟩
    · rw [hl] at h; cases h
    · rw [hl] at h
      rcases o1 with _ | v1
      · simp at h
      · have hd1 : d1 = [] := ihl d1 v1 hl
        subst hd1
        rcases hr : rhs.evaluate with e2 | ⟨d2, o2⟩
        · rw [hr] at h; cases h
        · rw [hr] at h
          rcases o2 with _ | v2
          · simp at h
          · have hd2 : d2 = [] := ihr d2 v2 hr
            subst hd2
            dsimp only at h
            rcases hab : applyBinary op v1 v2 with e3 | ⟨d3, o3⟩
            · rw [hab] at h; cases h
            · rw [hab] at h
              simp at h
              rcases o3 with _ | v3
              · simp at h
              · have : d3 = [] := applyBinary_ok_some_diags_nil op v1 v2 d3 v3 hab
                simp [this] at h
                simp [h.1]
  | grouping l sub r ih => exact ih d v h

/-! ## Claims -/

/-- Claim C1, counterexample: the claim says `Statement.interpret` on a
plain expression statement evaluates the inner expression and returns
`false` exactly when that evaluation returns `None`. For the expression
`-true`, evaluation is `None` with one Type diagnostic, yet `interpret`
returns `true`, emits nothing, and prints nothing: the inner expression is
never evaluated. -/
theorem C1_counterexample :
    (Expr.unary ⟨.minus, ⟨0, 0⟩⟩ (.literal (.bool true))).evaluate =
      .ok ([.unaryMismatch .minus (.bool true) ⟨0, 0⟩], none) ∧
    Statement.interpret (.expr (Expr.unary ⟨.minus, ⟨0, 0⟩⟩ (.literal (.bool true)))) =
      .ok ([], [], true) := by
  exact ⟨rfl, rfl⟩

/-- Claim C1 (amended): `Statement::interpret` on a `Statement::Expr`
falls into the catch-all `_ => {}` arm of `statement.rs`: the inner
expression is never evaluated, no diagnostic is emitted, nothing is
printed, and the result is always `true` — a type error inside a plain
expression statement can neither be reported nor abort the program. -/
theorem C1_interpret_expr_noop :
    ∀ e : Expr, Statement.interpret (.expr e) = .ok ([], [], true) :=
  fun _ => rfl

/-- Claim C4, counterexample: the claim says `"1 +\n2\n"` lexes to exactly
`[Number(1), Plus, Number(2), Newline, Eof]`. Lexing succeeds, but yields
only four tokens: no `Eof` token is appended, because the scan ends
exactly at the final newline and `Eof` is only produced when an iteration
starts before the end and trailing whitespace or a comment moves the
scanner onto the `'\0'` sentinel. -/
theorem C4_counterexample :
    ((lex "1 +\n2\n").1).map (fun ts => ts.map Token.kind) =
      some [.literal (.number 1), .plus, .literal (.number 2), .newline] ∧
    ([.literal (.number 1), .plus, .literal (.number 2), .newline] : List TokenKind) ≠
      [.literal (.number 1), .plus, .literal (.number 2), .newline, .eof] := by
  exact ⟨rfl, by decide⟩

/-- Claim C4 (amended): lexing `"1 +\n2\n"` succeeds with no diagnostics
and yields exactly `[Number(1), Plus, Number(2), Newline]` — the newline
after `+` is suppressed and the newline after `2` is kept — with no `Eof`
token, since the scan ends exactly at the final newline. An `Eof` token
appears only when trailing whitespace or a comment leaves the scanner at
end-of-input in the middle of a loop iteration, as in `"1 +\n2\n "`. -/
theorem C4_lex_exact :
    lex "1 +\n2\n" = (some [⟨.literal (.number 1), ⟨0, 0⟩⟩, ⟨.plus, ⟨0, 2⟩⟩,
      ⟨.literal (.number 2), ⟨1, 0⟩⟩, ⟨.newline, ⟨1, 1⟩⟩], []) ∧
    lex "1 +\n2\n " = (some [⟨.literal (.number 1), ⟨0, 0⟩⟩, ⟨.plus, ⟨0, 2⟩⟩,
      ⟨.literal (.number 2), ⟨1, 0⟩⟩, ⟨.newline, ⟨1, 1⟩⟩, ⟨.eof, ⟨2, 1⟩⟩], []) := by
  exact ⟨rfl, rfl⟩

/-- Claim C9: `2 + 3 * 4` lexes and parses to
`Binary(2, +, Binary(3, *, 4))` — factor binds tighter than term — and
evaluates to `Number(14)`; `10 - 2 - 3` parses left-associatively to
`Binary(Binary(10, -, 2), -, 3)` and evaluates to `Number(5)`, not
`11`. -/
theorem C9_precedence_and_left_fold :
    lex "2 + 3 * 4\n" = (some [⟨.literal (.number 2), ⟨0, 0⟩⟩, ⟨.plus, ⟨0, 2⟩⟩,
      ⟨.literal (.number 3), ⟨0, 4⟩⟩, ⟨.star, ⟨0, 6⟩⟩,
      ⟨.literal (.number 4), ⟨0, 8⟩⟩, ⟨.newline, ⟨0, 9⟩⟩], []) ∧
    parseProgram [⟨.literal (.number 2), ⟨0, 0⟩⟩, ⟨.plus, ⟨0, 2⟩⟩,
      ⟨.literal (.number 3), ⟨0, 4⟩⟩, ⟨.star, ⟨0, 6⟩⟩,
      ⟨.literal (.number 4), ⟨0, 8⟩⟩, ⟨.newline, ⟨0, 9⟩⟩] =
      .ok (some [.expr (.binary (.literal (.number 2)) ⟨.plus, ⟨0, 2⟩⟩
        (.binary (.literal (.number 3)) ⟨.star, ⟨0, 6⟩⟩ (.literal (.number 4))))], []) ∧
    (Expr.binary (.literal (.number 2)) ⟨.plus, ⟨0, 2⟩⟩
      (.binary (.literal (.number 3)) ⟨.star, ⟨0, 6⟩⟩
        (.literal (.number 4)))).evaluate = .ok ([], some (.number 14)) ∧
    lex "10 - 2 - 3\n" = (some [⟨.literal (.number 10), ⟨0, 0⟩⟩, ⟨.minus, ⟨0, 3⟩⟩,
      ⟨.literal (.number 2), ⟨0, 5⟩⟩, ⟨.minus, ⟨0, 7⟩⟩,
      ⟨.literal (.number 3), ⟨0, 9⟩⟩, ⟨.newline, ⟨0, 10⟩⟩], []) ∧
    parseProgram [⟨.literal (.number 10), ⟨0, 0⟩⟩, ⟨.minus, ⟨0, 3⟩⟩,
      ⟨.literal (.number 2), ⟨0, 5⟩⟩, ⟨.minus, ⟨0, 7⟩⟩,
      ⟨.literal (.number 3), ⟨0, 9⟩⟩, ⟨.newline, ⟨0, 10⟩⟩] =
      .ok (some [.expr (.binary (.binary (.literal (.number 10)) ⟨.minus, ⟨0, 3⟩⟩
        (.literal (.number 2))) ⟨.minus, ⟨0, 7⟩⟩ (.literal (.number 3)))], []) ∧
    (Expr.binary (.binary (.literal (.number 10)) ⟨.minus, ⟨0, 3⟩⟩
      (.literal (.number 2))) ⟨.minus, ⟨0, 7⟩⟩
      (.literal (.number 3))).evaluate = .ok ([], some (.number 5)) := by
  refine ⟨rfl, rfl, by with_unfolding_all rfl, rfl, rfl, by with_unfolding_all rfl⟩

/-- Claim C2, counterexample: the claim ends "every program using these
operators reaches an undefined path", but the program `1 and 2` lexes,
parses, and then runs to completion without reaching the undefined arm:
its only statement is a plain expression statement, which `interpret`
never evaluates. -/
theorem C2_counterexample :
    lex "1 and 2\n" = (some [⟨.literal (.number 1), ⟨0, 0⟩⟩, ⟨.andKw, ⟨0, 2⟩⟩,
      ⟨.literal (.number 2), ⟨0, 6⟩⟩, ⟨.newline, ⟨0, 7⟩⟩], []) ∧
    parseProgram [⟨.literal (.number 1), ⟨0, 0⟩⟩, ⟨.andKw, ⟨0, 2⟩⟩,
      ⟨.literal (.number 2), ⟨0, 6⟩⟩, ⟨.newline, ⟨0, 7⟩⟩] =
      .ok (some [.expr (.binary (.literal (.number 1)) ⟨.andKw, ⟨0, 2⟩⟩
        (.literal (.number 2)))], []) ∧
    runProgram [.expr (.binary (.literal (.number 1)) ⟨.andKw, ⟨0, 2⟩⟩
      (.literal (.number 2)))] = .ok ([], [], true) := by
  exact ⟨rfl, rfl, rfl⟩

/-- Claim C2 (amended): every `Binary` expression whose operator token is
`And` or `Or` and whose operands both evaluate to `Some` literal drives
`evaluate_binary` into the catch-all `unreachable!()` arm (a panic); the
source program `true and false` (with a newline) lexes and parses
successfully and evaluating its expression reaches that arm, and the
program `print true and false` reaches it at run time; but a plain
expression statement is never evaluated by `interpret`, so a program can
use these operators without reaching the undefined path. -/
theorem C2_and_or_panics :
    (∀ (l r : Expr) (op : Token) (d1 d2 : List TypeDiag) (v1 v2 : Literal),
      (op.kind = .andKw ∨ op.kind = .orKw) →
      l.evaluate = .ok (d1, some v1) → r.evaluate = .ok (d2, some v2) →
      (Expr.binary l op r).evaluate = .error .unreachableReached) ∧
    lex "true and false\n" = (some [⟨.literal (.bool true), ⟨0, 0⟩⟩, ⟨.andKw, ⟨0, 5⟩⟩,
      ⟨.literal (.bool false), ⟨0, 9⟩⟩, ⟨.newline, ⟨0, 14⟩⟩], []) ∧
    parseProgram [⟨.literal (.bool true), ⟨0, 0⟩⟩, ⟨.andKw, ⟨0, 5⟩⟩,
      ⟨.literal (.bool false), ⟨0, 9⟩⟩, ⟨.newline, ⟨0, 14⟩⟩] =
      .ok (some [.expr (.binary (.literal (.bool true)) ⟨.andKw, ⟨0, 5⟩⟩
        (.literal (.bool false)))], []) ∧
    (Expr.binary (.literal (.bool true)) ⟨.andKw, ⟨0, 5⟩⟩
      (.literal (.bool false))).evaluate = .error .unreachableReached ∧
    lex "print true and false\n" = (some [⟨.printKw, ⟨0, 0⟩⟩,
      ⟨.literal (.bool true), ⟨0, 6⟩⟩, ⟨.andKw, ⟨0, 11⟩⟩,
      ⟨.literal (.bool false), ⟨0, 15⟩⟩, ⟨.newline, ⟨0, 20⟩⟩], []) ∧
    parseProgram [⟨.printKw, ⟨0, 0⟩⟩, ⟨.literal (.bool true), ⟨0, 6⟩⟩,
      ⟨.andKw, ⟨0, 11⟩⟩, ⟨.literal (.bool false), ⟨0, 15⟩⟩, ⟨.newline, ⟨0, 20⟩⟩] =
      .ok (some [.print (.binary (.literal (.bool true)) ⟨.andKw, ⟨0, 11⟩⟩
        (.literal (.bool false)))], []) ∧
    runProgram [.print (.binary (.literal (.bool true)) ⟨.andKw, ⟨0, 11⟩⟩
      (.literal (.bool false)))] = .error .unreachableReached := by
  refine ⟨?_, rfl, rfl, rfl, rfl, rfl, rfl⟩
  intro l r op d1 d2 v1 v2 hop hl hr
  simp only [Expr.evaluate, hl, hr]
  rcases hop with h | h <;> simp [applyBinary, h]

/-- Claim C2, witness: the universally quantified part of
`C2_and_or_panics` instantiated at `true and false`. -/
theorem C2_witness :
    (Expr.binary (.literal (.bool true)) ⟨.andKw, ⟨0, 5⟩⟩
      (.literal (.bool false))).evaluate = .error .unreachableReached :=
  C2_and_or_panics.1 (.literal (.bool true)) (.literal (.bool false))
    ⟨.andKw, ⟨0, 5⟩⟩ [] [] (.bool true) (.bool false) (Or.inl rfl) rfl rfl

/-- Claim C5, counterexample: the claim says every parser failure path
emits exactly one diagnostic, and that a three-statement program with only
the second statement malformed yields exactly one parse diagnostic with
statements 1 and 3 still produced. For `1\n()\n2\n` (second statement
`()` malformed), the failure happens in `parse_primary`'s silent
`_ => None` arm: parsing fails overall with ZERO diagnostics, and the
recovery path also swallows statement 3 — only statement 1 is ever
produced. -/
theorem C5_counterexample :
    lex "1\n()\n2\n" = (some [⟨.literal (.number 1), ⟨0, 0⟩⟩, ⟨.newline, ⟨0, 1⟩⟩,
      ⟨.leftParen, ⟨1, 0⟩⟩, ⟨.rightParen, ⟨1, 1⟩⟩, ⟨.newline, ⟨1, 2⟩⟩,
      ⟨.literal (.number 2), ⟨2, 0⟩⟩, ⟨.newline, ⟨2, 1⟩⟩], []) ∧
    collect_statements_loop (parseFuel [⟨.literal (.number 1), ⟨0, 0⟩⟩,
      ⟨.newline, ⟨0, 1⟩⟩, ⟨.leftParen, ⟨1, 0⟩⟩, ⟨.rightParen, ⟨1, 1⟩⟩,
      ⟨.newline, ⟨1, 2⟩⟩, ⟨.literal (.number 2), ⟨2, 0⟩⟩, ⟨.newline, ⟨2, 1⟩⟩])
      ⟨[⟨.literal (.number 1), ⟨0, 0⟩⟩, ⟨.newline, ⟨0, 1⟩⟩, ⟨.leftParen, ⟨1, 0⟩⟩,
        ⟨.rightParen, ⟨1, 1⟩⟩, ⟨.newline, ⟨1, 2⟩⟩, ⟨.literal (.number 2), ⟨2, 0⟩⟩,
        ⟨.newline, ⟨2, 1⟩⟩], 0, []⟩ =
      .ok ([.expr (.literal (.number 1))], true,
        ⟨[⟨.literal (.number 1), ⟨0, 0⟩⟩, ⟨.newline, ⟨0, 1⟩⟩, ⟨.leftParen, ⟨1, 0⟩⟩,
          ⟨.rightParen, ⟨1, 1⟩⟩, ⟨.newline, ⟨1, 2⟩⟩, ⟨.literal (.number 2), ⟨2, 0⟩⟩,
          ⟨.newline, ⟨2, 1⟩⟩], 6, []⟩) ∧
    parseProgram [⟨.literal (.number 1), ⟨0, 0⟩⟩, ⟨.newline, ⟨0, 1⟩⟩,
      ⟨.leftParen, ⟨1, 0⟩⟩, ⟨.rightParen, ⟨1, 1⟩⟩, ⟨.newline, ⟨1, 2⟩⟩,
      ⟨.literal (.number 2), ⟨2, 0⟩⟩, ⟨.newline, ⟨2, 1⟩⟩] = .ok (none, []) := by
  exact ⟨rfl, rfl, rfl⟩

/-- Claim C5 (amended): the failure paths through `consume` and
`expect_closing` each emit exactly one Parsing diagnostic before failing,
and `parse_primary`'s rejection of an unexpected token emits none (it
fails silently). A three-statement program whose middle statement fails at
`expect_closing`, such as `1\n(1 2)\n2\n`, yields exactly one parse
diagnostic, overall failure (`None`), and statements 1 and 3 are still
attempted and produced by the synchronize recovery path. -/
theorem C5_failure_diagnostics :
    (∀ (p : PState) (kind : TokenKind) (p' : PState),
      p.consume kind = .ok (none, p') → ∃ d, p'.diags = p.diags ++ [d]) ∧
    (∀ (p : PState) (kind : TokenKind) (p' : PState),
      expect_closing p kind = .ok (none, p') → ∃ d, p'.diags = p.diags ++ [d]) ∧
    (∀ (fuel : Nat) (p : PState) (tok : Token) (p1 : PState),
      p.advanceT = .ok (tok, p1) →
      (∀ l, tok.kind ≠ .literal l) → tok.kind ≠ .leftParen →
      tok.kind ≠ .leftBrace → tok.kind ≠ .leftBracket →
      parse_primary (fuel + 1) p = .ok (none, p1) ∧ p1.diags = p.diags) ∧
    lex "1\n(1 2)\n2\n" = (some [⟨.literal (.number 1), ⟨0, 0⟩⟩, ⟨.newline, ⟨0, 1⟩⟩,
      ⟨.leftParen, ⟨1, 0⟩⟩, ⟨.literal (.number 1), ⟨1, 1⟩⟩,
      ⟨.literal (.number 2), ⟨1, 3⟩⟩, ⟨.rightParen, ⟨1, 4⟩⟩, ⟨.newline, ⟨1, 5⟩⟩,
      ⟨.literal (.number 2), ⟨2, 0⟩⟩, ⟨.newline, ⟨2, 1⟩⟩], []) ∧
    collect_statements_loop (parseFuel [⟨.literal (.number 1), ⟨0, 0⟩⟩,
      ⟨.newline, ⟨0, 1⟩⟩, ⟨.leftParen, ⟨1, 0⟩⟩, ⟨.literal (.number 1), ⟨1, 1⟩⟩,
      ⟨.literal (.number 2), ⟨1, 3⟩⟩, ⟨.rightParen, ⟨1, 4⟩⟩, ⟨.newline, ⟨1, 5⟩⟩,
      ⟨.literal (.number 2), ⟨2, 0⟩⟩, ⟨.newline, ⟨2, 1⟩⟩])
      ⟨[⟨.literal (.number 1), ⟨0, 0⟩⟩, ⟨.newline, ⟨0, 1⟩⟩, ⟨.leftParen, ⟨1, 0⟩⟩,
        ⟨.literal (.number 1), ⟨1, 1⟩⟩, ⟨.literal (.number 2), ⟨1, 3⟩⟩,
        ⟨.rightParen, ⟨1, 4⟩⟩, ⟨.newline, ⟨1, 5⟩⟩, ⟨.literal (.number 2), ⟨2, 0⟩⟩,
        ⟨.newline, ⟨2, 1⟩⟩], 0, []⟩ =
      .ok ([.expr (.literal (.number 1)), .expr (.literal (.number 2))], true,
        ⟨[⟨.literal (.number 1), ⟨0, 0⟩⟩, ⟨.newline, ⟨0, 1⟩⟩, ⟨.leftParen, ⟨1, 0⟩⟩,
          ⟨.literal (.number 1), ⟨1, 1⟩⟩, ⟨.literal (.number 2), ⟨1, 3⟩⟩,
          ⟨.rightParen, ⟨1, 4⟩⟩, ⟨.newline, ⟨1, 5⟩⟩, ⟨.literal (.number 2), ⟨2, 0⟩⟩,
          ⟨.newline, ⟨2, 1⟩⟩], 9,
          [.expectedClosing .rightParen (.literal (.number 2)) ⟨1, 3⟩]⟩) ∧
    parseProgram [⟨.literal (.number 1), ⟨0, 0⟩⟩, ⟨.newline, ⟨0, 1⟩⟩,
      ⟨.leftParen, ⟨1, 0⟩⟩, ⟨.literal (.number 1), ⟨1, 1⟩⟩,
      ⟨.literal (.number 2), ⟨1, 3⟩⟩, ⟨.rightParen, ⟨1, 4⟩⟩, ⟨.newline, ⟨1, 5⟩⟩,
      ⟨.literal (.number 2), ⟨2, 0⟩⟩, ⟨.newline, ⟨2, 1⟩⟩] =
      .ok (none, [.expectedClosing .rightParen (.literal (.number 2)) ⟨1, 3⟩]) := by
  refine ⟨?_, ?_, ?_, rfl, rfl, rfl⟩
  · intro p kind p' h
    unfold PState.consume at h
    rcases hpk : p.peekT with e | t <;> rw [hpk] at h
    · cases h
    · dsimp only at h
      by_cases hk : t.kind = kind
      · rw [if_pos hk] at h
        rcases hadv : p.advanceT with e | ⟨t', p2⟩ <;> rw [hadv] at h <;> cases h
      · rw [if_neg hk] at h
        cases h
        exact ⟨_, rfl⟩
  · intro p kind p' h
    unfold expect_closing at h
    rcases hadv : p.advanceT with e | ⟨tok, p1⟩ <;> rw [hadv] at h
    · cases h
    · have hd : p1.diags = p.diags := by
        unfold PState.advanceT at hadv
        rcases hg : p.tokens[p.cursor]? with _ | t <;> rw [hg] at hadv
        · cases hadv
        · cases hadv; rfl
      dsimp only at h
      rcases hc : complementOf kind with _ | expect <;> rw [hc] at h <;> dsimp only at h
      · cases h; exact ⟨_, by rw [← hd]; rfl⟩
      · by_cases he : tok.kind = expect
        · rw [if_pos he] at h; cases h
        · rw [if_neg he] at h; cases h; exact ⟨_, by rw [← hd]; rfl⟩
  · intro fuel p tok p1 hadv hlit hlp hlb hlbk
    have hd : p1.diags = p.diags := by
      unfold PState.advanceT at hadv
      rcases hg : p.tokens[p.cursor]? with _ | t <;> rw [hg] at hadv
      · cases hadv
      · cases hadv; rfl
    refine ⟨?_, hd⟩
    rw [parse_primary, hadv]
    cases hk : tok.kind <;> simp_all

/-- Claim C5, witness: the `consume` clause of `C5_failure_diagnostics`
instantiated at a parser state peeking `Eof` while `Newline` is
expected. -/
theorem C5_witness :
    ∃ d, (PState.mk [⟨.eof, ⟨0, 0⟩⟩] 0 []).diags ++ [d] =
      ([] : List ParseDiag) ++ [d] ∧
      ((PState.mk [⟨.eof, ⟨0, 0⟩⟩] 0 []).emit
        (.expectedFound .newline .eof ⟨0, 0⟩)).diags =
        (PState.mk [⟨.eof, ⟨0, 0⟩⟩] 0 []).diags ++ [d] := by
  obtain ⟨d, hd⟩ := C5_failure_diagnostics.1 (PState.mk [⟨.eof, ⟨0, 0⟩⟩] 0 [])
    .newline ((PState.mk [⟨.eof, ⟨0, 0⟩⟩] 0 []).emit
      (.expectedFound .newline .eof ⟨0, 0⟩)) rfl
  exact ⟨d, rfl, hd⟩

/-- Specification-side predicate for claim C7: the pairs of literal kinds
the spec lists as comparable under `==` / `!=` — both numbers, both
booleans, or both strings. -/
def eqComparable : Literal → Literal → Bool
  | .number _, .number _ => true
  | .bool _, .bool _ => true
  | .str _, .str _ => true
  | _, _ => false

/-- Specification-side equality of two literals on the comparable pairs
(`false` elsewhere; only consulted under `eqComparable`). -/
def litEq : Literal → Literal → Bool
  | .number a, .number b => a = b
  | .bool a, .bool b => a = b
  | .str a, .str b => a = b
  | _, _ => false

/-- Claim C7: for every `Binary` expression with operator `==` or `!=`
whose operands evaluate to literals, a Number/Number, Bool/Bool or
String/String pair yields `Some(Bool)` of the corresponding (in)equality
with no diagnostic, and every other pair of literal kinds — cross-type
pairs such as `1 == "1"` as well as pairs outside the three listed
combinations such as `Nil` with `Nil` — emits exactly one Type diagnostic
and evaluates to `None`, never `Bool(false)`. -/
theorem C7_equality_dispatch :
    ∀ (l r : Expr) (op : Token) (d1 d2 : List TypeDiag) (v1 v2 : Literal),
    l.evaluate = .ok (d1, some v1) → r.evaluate = .ok (d2, some v2) →
    (op.kind = .equalEqual →
      (Expr.binary l op r).evaluate =
        (if eqComparable v1 v2 then .ok ([], some (.bool (litEq v1 v2)))
         else .ok ([.binaryMismatch .equalEqual v1 v2 op.position], none))) ∧
    (op.kind = .bangEqual →
      (Expr.binary l op r).evaluate =
        (if eqComparable v1 v2 then .ok ([], some (.bool (!litEq v1 v2)))
         else .ok ([.binaryMismatch .bangEqual v1 v2 op.position], none))) := by
  intro l r op d1 d2 v1 v2 hl hr
  have hd1 : d1 = [] := evaluate_ok_some_diags_nil l d1 v1 hl
  have hd2 : d2 = [] := evaluate_ok_some_diags_nil r d2 v2 hr
  subst hd1 hd2
  constructor <;> intro hop <;> simp only [Expr.evaluate, hl, hr] <;>
    cases v1 <;> cases v2 <;> simp [applyBinary, hop, eqComparable, litEq, decide_not]

/-- Claim C7, witness: `1 == "1"` evaluates to `None` with exactly one
Type diagnostic (not `Bool(false)`), and `nil == nil` does too. -/
theorem C7_witness :
    (Expr.binary (.literal (.number 1)) ⟨.equalEqual, ⟨0, 2⟩⟩
      (.literal (.str "1"))).evaluate =
      .ok ([.binaryMismatch .equalEqual (.number 1) (.str "1") ⟨0, 2⟩], none) ∧
    (Expr.binary (.literal .nil) ⟨.equalEqual, ⟨0, 4⟩⟩
      (.literal .nil)).evaluate =
      .ok ([.binaryMismatch .equalEqual .nil .nil ⟨0, 4⟩], none) := by
  constructor
  · have h := (C7_equality_dispatch (.literal (.number 1)) (.literal (.str "1"))
      ⟨.equalEqual, ⟨0, 2⟩⟩ [] [] (.number 1) (.str "1") rfl rfl).1 rfl
    simpa [eqComparable] using h
  · have h := (C7_equality_dispatch (.literal .nil) (.literal .nil)
      ⟨.equalEqual, ⟨0, 4⟩⟩ [] [] .nil .nil rfl rfl).1 rfl
    simpa [eqComparable] using h

/-- Significance of the most recently emitted token for newline handling:
`false` when no token has been emitted yet. -/
def lastSignificant (toks : List Token) : Bool :=
  match toks.getLast? with
  | some t => significantAfter t.kind
  | none => false

/-- Claim C6: whenever the scanning loop meets a `'\n'` (necessarily
outside a string literal — newlines inside string literals are consumed by
`collect_string`), the iteration consumes exactly that character and emits
a `Newline` token if and only if the most recently emitted token's kind is
one of `RightParen`, `RightBracket`, `Literal(*)`, `Break`, `Continue`
(and a token has been emitted at all); otherwise it emits nothing. The
delimiter stacks, diagnostics, and event record are untouched and never
consulted, so the decision is independent of the current
paren/brace/bracket depth. -/
theorem C6_newline_significance :
    ∀ (st : LexState) (toks : List Token),
    st.peekc = '\n' →
    (lexStep st toks).2 = (st.advance).2 ∧
    (lexStep st toks).2.parenStack = st.parenStack ∧
    (lexStep st toks).2.braceStack = st.braceStack ∧
    (lexStep st toks).2.bracketStack = st.bracketStack ∧
    (lexStep st toks).2.diags = st.diags ∧
    (lexStep st toks).2.events = st.events ∧
    (lastSignificant toks = true →
      (lexStep st toks).1 = .token ⟨.newline, st.pos⟩) ∧
    (lastSignificant toks = false → (lexStep st toks).1 = .skip) := by
  intro st toks hp
  obtain ⟨rest, pos, ps, bs, ks, ds, es⟩ := st
  rcases rest with _ | ⟨c, tail⟩
  · simp [LexState.peekc] at hp
  · have hc : c = '\n' := by simpa [LexState.peekc] using hp
    subst hc
    have h1 : isAsciiAlpha '\n' = false := by decide
    have h2 : isAsciiDigit '\n' = false := by decide
    have h3 : ('\n' : Char) ≠ '#' := by decide
    have h4 : ('\n' : Char) ≠ '"' := by decide
    unfold lastSignificant
    rcases hlast : toks.getLast? with _ | t
    · simp [lexStep, skip_whitespace, skip_ws_go, collect_newline, hlast, h1, h2, h3, h4,
        LexState.peekc, LexState.advance, posAdv]
    · by_cases hsig : significantAfter t.kind
      · simp [lexStep, skip_whitespace, skip_ws_go, collect_newline, hlast, hsig,
          h1, h2, h3, h4, LexState.peekc, LexState.advance, posAdv]
      · simp [lexStep, skip_whitespace, skip_ws_go, collect_newline, hlast, hsig,
          h1, h2, h3, h4, LexState.peekc, LexState.advance, posAdv]

/-- Claim C6, witness: after a `Number` literal a newline is emitted as a
token; with no preceding token it is absorbed. -/
theorem C6_witness :
    (lexStep (LexState.init ['\n']) [⟨.literal (.number 1), ⟨0, 0⟩⟩]).1 =
      .token ⟨.newline, ⟨0, 0⟩⟩ ∧
    (lexStep (LexState.init ['\n']) []).1 = .skip := by
  constructor
  · exact (C6_newline_significance (LexState.init ['\n'])
      [⟨.literal (.number 1), ⟨0, 0⟩⟩] rfl).2.2.2.2.2.2.1 rfl
  · exact (C6_newline_significance (LexState.init ['\n']) [] rfl).2.2.2.2.2.2.2 rfl

/-- Helper for claim C10: `parse_statement` can only build a `Print` or a
plain `Expr` statement — the `VarDecl` constructor appears nowhere in
`parser.rs`. -/
theorem parse_statement_shape : ∀ (fuel : Nat) (p : PState) (s : Statement) (p' : PState),
    parse_statement fuel p = .ok (some s, p') →
    (∃ e, s = .print e) ∨ (∃ e, s = .expr e) := by
  intro fuel p s p' h
  unfold parse_statement parse_print at h
  repeat' split at h
  all_goals (try cases h) <;> simp_all

/-- Claim C10: every statement returned by `collect_statements` is a
`Statement::Print` or a `Statement::Expr` — the parser never produces
`VarDecl` — and the `let` keyword is never the start of a successfully
parsed statement (`parse_statement` fails on it, silently, one token in)
while `synchronize` halts at a `let` without consuming it, i.e. `let` is
only a synchronization target. -/
theorem C10_no_vardecl :
    (∀ (fuel : Nat) (p : PState) (stmts : List Statement) (err : Bool) (p' : PState),
      collect_statements_loop fuel p = .ok (stmts, err, p') →
      ∀ s ∈ stmts, (∃ e, s = .print e) ∨ (∃ e, s = .expr e)) ∧
    (∀ (fuel : Nat) (p : PState) (t : Token),
      p.peekT = .ok t → t.kind = .letKw →
      parse_statement (fuel + 9) p = .ok (none, { p with cursor := p.cursor + 1 })) ∧
    (∀ (fuel : Nat) (p : PState) (t : Token),
      p.reached_end = .ok false → p.peekT = .ok t → t.kind = .letKw →
      synchronize_loop (fuel + 1) p = .ok p) := by
  refine ⟨?_, ?_, ?_⟩
  · intro fuel
    induction fuel with
    | zero => intro p stmts err p' h; cases h
    | succ f ih =>
      intro p stmts err p' h
      unfold collect_statements_loop at h
      rcases hre : p.reached_end with e | b <;> rw [hre] at h
      · cases h
      · rcases b with _ | _
        · dsimp only at h
          rcases hps : parse_statement f p with e | ⟨os, p1⟩ <;> rw [hps] at h
          · cases h
          · rcases os with _ | s1 <;> dsimp only at h
            · rcases hsy : synchronize f p1 with e | p2 <;> rw [hsy] at h
              · cases h
              · dsimp only at h
                rcases hcl : collect_statements_loop f p2 with e | ⟨rest, err2, p3⟩ <;>
                  rw [hcl] at h
                · cases h
                · cases h
                  exact ih p2 _ _ _ hcl
            · rcases hcl : collect_statements_loop f p1 with e | ⟨rest, err2, p3⟩ <;>
                rw [hcl] at h
              · cases h
              · cases h
                intro s hs
                rcases List.mem_cons.1 hs with rfl | hs2
                · exact parse_statement_shape f p s p1 hps
                · exact ih p1 _ _ _ hcl s hs2
        · dsimp only at h
          cases h
          intro s hs
          cases hs
  · intro fuel p t hpk hk
    have hg : p.tokens[p.cursor]? = some t := by
      unfold PState.peekT at hpk
      rcases hg : p.tokens[p.cursor]? with _ | t' <;> rw [hg] at hpk
      · cases hpk
      · cases hpk; rfl
    have hadv : p.advanceT = .ok (t, { p with cursor := p.cursor + 1 }) := by
      unfold PState.advanceT
      rw [hg]
    have h0 : parse_primary (fuel + 1) p = .ok (none, { p with cursor := p.cursor + 1 }) := by
      rw [parse_primary, hadv]
      simp only [hk]
    have h1 : parse_unary (fuel + 2) p = .ok (none, { p with cursor := p.cursor + 1 }) := by
      rw [parse_unary, hpk]
      simp only [hk]
      simp only [show (TokenKind.letKw = TokenKind.bang ∨ TokenKind.letKw = TokenKind.minus) =
        False from by simp, if_false]
      exact h0
    have h2 : parse_factor (fuel + 3) p = .ok (none, { p with cursor := p.cursor + 1 }) := by
      rw [parse_factor, h1]
    have h3 : parse_term (fuel + 4) p = .ok (none, { p with cursor := p.cursor + 1 }) := by
      rw [parse_term, h2]
    have h4 : parse_comparison (fuel + 5) p = .ok (none, { p with cursor := p.cursor + 1 }) := by
      rw [parse_comparison, h3]
    have h5 : parse_equality (fuel + 6) p = .ok (none, { p with cursor := p.cursor + 1 }) := by
      rw [parse_equality, h4]
    have h6 : parse_and (fuel + 7) p = .ok (none, { p with cursor := p.cursor + 1 }) := by
      rw [parse_and, h5]
    have h7 : parse_or (fuel + 8) p = .ok (none, { p with cursor := p.cursor + 1 }) := by
      rw [parse_or, h6]
    have h8 : parse_expr (fuel + 9) p = .ok (none, { p with cursor := p.cursor + 1 }) := by
      rw [parse_expr, h7]
    rw [parse_statement, hpk]
    simp only [hk]
    rw [h8]
  · intro fuel p t hre hpk hk
    rw [synchronize_loop, hre]
    simp only
    rw [hpk]
    simp only [hk]

/-- Claim C10, witness: the parsed statement of the program `1` is a plain
`Expr` statement; `parse_statement` on a vector starting with `let` fails
one token in; `synchronize_loop` halts on a `let` without consuming it. -/
theorem C10_witness :
    ((∃ e, Statement.expr (.literal (.number 1)) = Statement.print e) ∨
      (∃ e, Statement.expr (.literal (.number 1)) = Statement.expr e)) ∧
    parse_statement 9 ⟨[⟨.letKw, ⟨0, 0⟩⟩, ⟨.newline, ⟨0, 1⟩⟩, ⟨.eof, ⟨0, 2⟩⟩], 0, []⟩ =
      .ok (none, ⟨[⟨.letKw, ⟨0, 0⟩⟩, ⟨.newline, ⟨0, 1⟩⟩, ⟨.eof, ⟨0, 2⟩⟩], 1, []⟩) ∧
    synchronize_loop 1 ⟨[⟨.letKw, ⟨0, 0⟩⟩, ⟨.newline, ⟨0, 1⟩⟩, ⟨.eof, ⟨0, 2⟩⟩], 0, []⟩ =
      .ok ⟨[⟨.letKw, ⟨0, 0⟩⟩, ⟨.newline, ⟨0, 1⟩⟩, ⟨.eof, ⟨0, 2⟩⟩], 0, []⟩ := by
  refine ⟨?_, ?_, ?_⟩
  · exact C10_no_vardecl.1 (parseFuel [⟨.literal (.number 1), ⟨0, 0⟩⟩, ⟨.newline, ⟨0, 1⟩⟩,
      ⟨.eof, ⟨0, 2⟩⟩]) ⟨[⟨.literal (.number 1), ⟨0, 0⟩⟩, ⟨.newline, ⟨0, 1⟩⟩,
      ⟨.eof, ⟨0, 2⟩⟩], 0, []⟩ [.expr (.literal (.number 1))] false
      ⟨[⟨.literal (.number 1), ⟨0, 0⟩⟩, ⟨.newline, ⟨0, 1⟩⟩, ⟨.eof, ⟨0, 2⟩⟩], 2, []⟩ rfl
      (Statement.expr (.literal (.number 1))) (by simp)
  · exact C10_no_vardecl.2.1 0 ⟨[⟨.letKw, ⟨0, 0⟩⟩, ⟨.newline, ⟨0, 1⟩⟩,
      ⟨.eof, ⟨0, 2⟩⟩], 0, []⟩ ⟨.letKw, ⟨0, 0⟩⟩ rfl rfl
  · exact C10_no_vardecl.2.2 0 ⟨[⟨.letKw, ⟨0, 0⟩⟩, ⟨.newline, ⟨0, 1⟩⟩,
      ⟨.eof, ⟨0, 2⟩⟩], 0, []⟩ ⟨.letKw, ⟨0, 0⟩⟩ rfl rfl rfl

/-! ## Parser cursor-safety development (claim C3) -/

/-- Safety contract of one precedence-ladder parser at one fuel value:
entered inside the token vector, it either runs out of fuel or returns
normally, leaving the cursor within bounds, and strictly inside on
success. -/
def SafeExprFn (tokens : List Token) (fuel : Nat)
    (F : Nat → PState → Except RtPanic (Option Expr × PState)) : Prop :=
  ∀ p : PState, p.tokens = tokens → p.cursor < tokens.length →
    F fuel p = .error .fuelOut ∨
    ∃ oe p', F fuel p = .ok (oe, p') ∧ p'.tokens = tokens ∧
      p'.cursor ≤ tokens.length ∧ (oe ≠ none → p'.cursor < tokens.length)

/-- Safety contract of a left-fold loop of one precedence level. -/
def SafeLoopFn (tokens : List Token) (fuel : Nat)
    (L : Nat → Expr → PState → Except RtPanic (Option Expr × PState)) : Prop :=
  ∀ (e : Expr) (p : PState), p.tokens = tokens → p.cursor < tokens.length →
    L fuel e p = .error .fuelOut ∨
    ∃ oe p', L fuel e p = .ok (oe, p') ∧ p'.tokens = tokens ∧
      p'.cursor ≤ tokens.length ∧ (oe ≠ none → p'.cursor < tokens.length)

theorem peekT_eq (p : PState) (t : Token) (h : p.tokens[p.cursor]? = some t) :
    p.peekT = .ok t := by
  unfold PState.peekT; rw [h]

theorem advanceT_eq (p : PState) (t : Token) (h : p.tokens[p.cursor]? = some t) :
    p.advanceT = .ok (t, { p with cursor := p.cursor + 1 }) := by
  unfold PState.advanceT; rw [h]

theorem exists_tok (p : PState) (h : p.cursor < p.tokens.length) :
    ∃ t, p.tokens[p.cursor]? = some t :=
  ⟨p.tokens[p.cursor], List.getElem?_eq_getElem h⟩

/-- A token that is not `Newline` or `Eof` cannot sit at the last index
of a sentinel-terminated vector, so the cursor stays strictly inside
after consuming it. -/
theorem cursor_succ_lt (tokens : List Token) (tl : Token)
    (hl : tokens.getLast? = some tl) (hkind : tl.kind = .newline ∨ tl.kind = .eof)
    (p : PState) (t : Token) (hpt : p.tokens = tokens)
    (hg : p.tokens[p.cursor]? = some t) (hclt : p.cursor < tokens.length)
    (hne : t.kind ≠ .newline ∧ t.kind ≠ .eof) : p.cursor + 1 < tokens.length := by
  rcases Nat.lt_or_ge (p.cursor + 1) tokens.length with h | h
  · exact h
  · exfalso
    have heq : p.cursor = tokens.length - 1 := by omega
    rw [List.getLast?_eq_getElem?] at hl
    rw [hpt, heq] at hg
    rw [hg] at hl
    have ht : t = tl := Option.some.inj hl
    rcases hkind with hk | hk <;> rw [ht] at hne
    · exact hne.1 hk
    · exact hne.2 hk

/-- Generic safety step for the left-fold loop shared by the six binary
precedence levels, parameterized by the level's operator set and
operand parser; instantiated with each loop's definitional equation. -/
theorem loop_step (tokens : List Token) (tl : Token)
    (hl : tokens.getLast? = some tl) (hkind : tl.kind = .newline ∨ tl.kind = .eof)
    (opset : TokenKind → Prop) [DecidablePred opset]
    (hops : ∀ k, opset k → k ≠ .newline ∧ k ≠ .eof)
    (sub : Nat → PState → Except RtPanic (Option Expr × PState))
    (L : Nat → Expr → PState → Except RtPanic (Option Expr × PState))
    (f : Nat)
    (hLdef : ∀ (e : Expr) (p : PState),
      L (f + 1) e p = match p.peekT with
        | .error er => .error er
        | .ok t =>
          if opset t.kind then
            match p.advanceT with
            | .error er => .error er
            | .ok (op, p1) =>
              match sub f p1 with
              | .error er => .error er
              | .ok (none, p2) => .ok (none, p2)
              | .ok (some rhs, p2) => L f (.binary e op rhs) p2
          else .ok (some e, p))
    (ih_sub : SafeExprFn tokens f sub) (ih_L : SafeLoopFn tokens f L) :
    SafeLoopFn tokens (f + 1) L := by
  intro e p hpt hpc
  obtain ⟨t, hg⟩ := exists_tok p (by rw [hpt]; exact hpc)
  have hpk := peekT_eq p t hg
  rw [hLdef, hpk]
  dsimp only
  by_cases hop : opset t.kind
  · rw [if_pos hop]
    have hadv := advanceT_eq p t hg
    rw [hadv]
    dsimp only
    have h1lt : p.cursor + 1 < tokens.length :=
      cursor_succ_lt tokens tl hl hkind p t hpt hg hpc (hops _ hop)
    rcases ih_sub { p with cursor := p.cursor + 1 } hpt h1lt with
      hfo | ⟨oe, p2, heq, h2a, h2b, h2c⟩
    · rw [hfo]; exact Or.inl rfl
    · rw [heq]
      rcases oe with _ | rhs
      · exact Or.inr ⟨none, p2, rfl, h2a, h2b, by simp⟩
      · dsimp only
        rcases ih_L (.binary e t rhs) p2 h2a (h2c (by simp)) with
          hfo2 | ⟨oe3, p3, heq3, h3a, h3b, h3c⟩
        · rw [hfo2]; exact Or.inl rfl
        · rw [heq3]; exact Or.inr ⟨oe3, p3, rfl, h3a, h3b, h3c⟩
  · rw [if_neg hop]
    exact Or.inr ⟨some e, p, rfl, hpt, Nat.le_of_lt hpc, fun _ => hpc⟩

/-- Generic safety step for a binary precedence level function. -/
theorem level_step (tokens : List Token)
    (sub : Nat → PState → Except RtPanic (Option Expr × PState))
    (L : Nat → Expr → PState → Except RtPanic (Option Expr × PState))
    (F : Nat → PState → Except RtPanic (Option Expr × PState))
    (f : Nat)
    (hFdef : ∀ p : PState, F (f + 1) p = match sub f p with
      | .error e => .error e
      | .ok (none, p1) => .ok (none, p1)
      | .ok (some e, p1) => L f e p1)
    (ih_sub : SafeExprFn tokens f sub) (ih_L : SafeLoopFn tokens f L) :
    SafeExprFn tokens (f + 1) F := by
  intro p hpt hpc
  rcases ih_sub p hpt hpc with hfo | ⟨oe, p1, heq, h1a, h1b, h1c⟩
  · rw [hFdef, hfo]; exact Or.inl rfl
  · rw [hFdef, heq]
    rcases oe with _ | e
    · exact Or.inr ⟨none, p1, rfl, h1a, h1b, by simp⟩
    · dsimp only
      rcases ih_L e p1 h1a (h1c (by simp)) with hfo2 | ⟨oe2, p2, heq2, h2a, h2b, h2c⟩
      · rw [hfo2]; exact Or.inl rfl
      · rw [heq2]; exact Or.inr ⟨oe2, p2, rfl, h2a, h2b, h2c⟩

/-- Safety step for `parse_unary`. -/
theorem unary_step (tokens : List Token) (tl : Token)
    (hl : tokens.getLast? = some tl) (hkind : tl.kind = .newline ∨ tl.kind = .eof)
    (f : Nat) (ih_unary : SafeExprFn tokens f parse_unary)
    (ih_primary : SafeExprFn tokens f parse_primary) :
    SafeExprFn tokens (f + 1) parse_unary := by
  intro p hpt hpc
  obtain ⟨t, hg⟩ := exists_tok p (by rw [hpt]; exact hpc)
  have hpk := peekT_eq p t hg
  rw [parse_unary, hpk]
  dsimp only
  by_cases hop : t.kind = .bang ∨ t.kind = .minus
  · rw [if_pos hop]
    have hadv := advanceT_eq p t hg
    rw [hadv]
    dsimp only
    have h1lt : p.cursor + 1 < tokens.length :=
      cursor_succ_lt tokens tl hl hkind p t hpt hg hpc
        (by rcases hop with h | h <;> rw [h] <;> exact ⟨by decide, by decide⟩)
    rcases ih_unary { p with cursor := p.cursor + 1 } hpt h1lt with
      hfo | ⟨oe, p2, heq, h2a, h2b, h2c⟩
    · rw [hfo]; exact Or.inl rfl
    · rw [heq]
      rcases oe with _ | rhs
      · exact Or.inr ⟨none, p2, rfl, h2a, h2b, by simp⟩
      · exact Or.inr ⟨some (.unary t rhs), p2, rfl, h2a, h2b, fun _ => h2c (by simp)⟩
  · rw [if_neg hop]
    exact ih_primary p hpt hpc

/-- `expect_closing` never panics when entered inside a
sentinel-terminated vector, and leaves the cursor strictly inside on
success. -/
theorem expect_closing_safe (tokens : List Token) (tl : Token)
    (hl : tokens.getLast? = some tl) (hkind : tl.kind = .newline ∨ tl.kind = .eof)
    (p : PState) (kind : TokenKind) (hpt : p.tokens = tokens)
    (hpc : p.cursor < tokens.length)
    (hk2 : kind = .leftParen ∨ kind = .leftBrace ∨ kind = .leftBracket) :
    ∃ r p', expect_closing p kind = .ok (r, p') ∧ p'.tokens = tokens ∧
      p'.cursor ≤ tokens.length ∧ (r ≠ none → p'.cursor < tokens.length) := by
  obtain ⟨t, hg⟩ := exists_tok p (by rw [hpt]; exact hpc)
  have hadv := advanceT_eq p t hg
  unfold expect_closing
  rw [hadv]
  dsimp only
  obtain ⟨expect, hcomp, hexp⟩ : ∃ ex, complementOf kind = some ex ∧
      (ex = .rightParen ∨ ex = .rightBrace ∨ ex = .rightBracket) := by
    rcases hk2 with h | h | h <;> subst h
    · exact ⟨.rightParen, rfl, Or.inl rfl⟩
    · exact ⟨.rightBrace, rfl, Or.inr (Or.inl rfl)⟩
    · exact ⟨.rightBracket, rfl, Or.inr (Or.inr rfl)⟩
  rw [hcomp]
  dsimp only
  by_cases he : t.kind = expect
  · rw [if_pos he]
    have h1lt : p.cursor + 1 < tokens.length :=
      cursor_succ_lt tokens tl hl hkind p t hpt hg hpc
        (by rcases hexp with h | h | h <;> rw [he, h] <;> exact ⟨by decide, by decide⟩)
    exact ⟨some t, _, rfl, hpt, Nat.le_of_lt h1lt, fun _ => h1lt⟩
  · rw [if_neg he]
    exact ⟨none, _, rfl, hpt, hpc, by simp⟩

/-- Safety step for `parse_primary`. -/
theorem primary_step (tokens : List Token) (tl : Token)
    (hl : tokens.getLast? = some tl) (hkind : tl.kind = .newline ∨ tl.kind = .eof)
    (f : Nat) (ih_expr : SafeExprFn tokens f parse_expr) :
    SafeExprFn tokens (f + 1) parse_primary := by
  intro p hpt hpc
  obtain ⟨t, hg⟩ := exists_tok p (by rw [hpt]; exact hpc)
  have hadv := advanceT_eq p t hg
  rw [parse_primary, hadv]
  dsimp only
  have hle : p.cursor + 1 ≤ tokens.length := hpc
  rcases hk : t.kind <;> dsimp only
  case literal l =>
    have h1lt : p.cursor + 1 < tokens.length :=
      cursor_succ_lt tokens tl hl hkind p t hpt hg hpc
        (by rw [hk]; exact ⟨by simp, by simp⟩)
    exact Or.inr ⟨some (.literal l), _, rfl, hpt, Nat.le_of_lt h1lt, fun _ => h1lt⟩
  case leftParen =>
    have h1lt : p.cursor + 1 < tokens.length :=
      cursor_succ_lt tokens tl hl hkind p t hpt hg hpc
        (by rw [hk]; exact ⟨by decide, by decide⟩)
    rcases ih_expr { p with cursor := p.cursor + 1 } hpt h1lt with
      hfo | ⟨oe, p2, heq, h2a, h2b, h2c⟩
    · rw [hfo]; exact Or.inl rfl
    · rw [heq]
      rcases oe with _ | e2
      · exact Or.inr ⟨none, p2, rfl, h2a, h2b, by simp⟩
      · dsimp only
        obtain ⟨r, p3, heq3, h3a, h3b, h3c⟩ :=
          expect_closing_safe tokens tl hl hkind p2 .leftParen h2a (h2c (by simp))
            (Or.inl rfl)
        rw [heq3]
        rcases r with _ | rhs
        · exact Or.inr ⟨none, p3, rfl, h3a, h3b, by simp⟩
        · exact Or.inr ⟨some (.grouping t e2 rhs), p3, rfl, h3a, h3b,
            fun _ => h3c (by simp)⟩
  case leftBrace =>
    have h1lt : p.cursor + 1 < tokens.length :=
      cursor_succ_lt tokens tl hl hkind p t hpt hg hpc
        (by rw [hk]; exact ⟨by decide, by decide⟩)
    rcases ih_expr { p with cursor := p.cursor + 1 } hpt h1lt with
      hfo | ⟨oe, p2, heq, h2a, h2b, h2c⟩
    · rw [hfo]; exact Or.inl rfl
    · rw [heq]
      rcases oe with _ | e2
      · exact Or.inr ⟨none, p2, rfl, h2a, h2b, by simp⟩
      · dsimp only
        obtain ⟨r, p3, heq3, h3a, h3b, h3c⟩ :=
          expect_closing_safe tokens tl hl hkind p2 .leftBrace h2a (h2c (by simp))
            (Or.inr (Or.inl rfl))
        rw [heq3]
        rcases r with _ | rhs
        · exact Or.inr ⟨none, p3, rfl, h3a, h3b, by simp⟩
        · exact Or.inr ⟨some (.grouping t e2 rhs), p3, rfl, h3a, h3b,
            fun _ => h3c (by simp)⟩
  case leftBracket =>
    have h1lt : p.cursor + 1 < tokens.length :=
      cursor_succ_lt tokens tl hl hkind p t hpt hg hpc
        (by rw [hk]; exact ⟨by decide, by decide⟩)
    rcases ih_expr { p with cursor := p.cursor + 1 } hpt h1lt with
      hfo | ⟨oe, p2, heq, h2a, h2b, h2c⟩
    · rw [hfo]; exact Or.inl rfl
    · rw [heq]
      rcases oe with _ | e2
      · exact Or.inr ⟨none, p2, rfl, h2a, h2b, by simp⟩
      · dsimp only
        obtain ⟨r, p3, heq3, h3a, h3b, h3c⟩ :=
          expect_closing_safe tokens tl hl hkind p2 .leftBracket h2a (h2c (by simp))
            (Or.inr (Or.inr rfl))
        rw [heq3]
        rcases r with _ | rhs
        · exact Or.inr ⟨none, p3, rfl, h3a, h3b, by simp⟩
        · exact Or.inr ⟨some (.grouping t e2 rhs), p3, rfl, h3a, h3b,
            fun _ => h3c (by simp)⟩
  all_goals exact Or.inr ⟨none, _, rfl, hpt, hle, by simp⟩

/-- Simultaneous fuel induction: every function of the precedence ladder
satisfies its safety contract at every fuel. -/
theorem ladder_safe (tokens : List Token) (tl : Token)
    (hl : tokens.getLast? = some tl) (hkind : tl.kind = .newline ∨ tl.kind = .eof) :
    ∀ fuel, SafeExprFn tokens fuel parse_primary ∧ SafeExprFn tokens fuel parse_unary ∧
      SafeLoopFn tokens fuel parse_factor_loop ∧ SafeExprFn tokens fuel parse_factor ∧
      SafeLoopFn tokens fuel parse_term_loop ∧ SafeExprFn tokens fuel parse_term ∧
      SafeLoopFn tokens fuel parse_comparison_loop ∧
      SafeExprFn tokens fuel parse_comparison ∧
      SafeLoopFn tokens fuel parse_equality_loop ∧ SafeExprFn tokens fuel parse_equality ∧
      SafeLoopFn tokens fuel parse_and_loop ∧ SafeExprFn tokens fuel parse_and ∧
      SafeLoopFn tokens fuel parse_or_loop ∧ SafeExprFn tokens fuel parse_or ∧
      SafeExprFn tokens fuel parse_expr := by
  intro fuel
  induction fuel with
  | zero =>
    exact ⟨fun p _ _ => Or.inl rfl, fun p _ _ => Or.inl rfl, fun e p _ _ => Or.inl rfl,
      fun p _ _ => Or.inl rfl, fun e p _ _ => Or.inl rfl, fun p _ _ => Or.inl rfl,
      fun e p _ _ => Or.inl rfl, fun p _ _ => Or.inl rfl, fun e p _ _ => Or.inl rfl,
      fun p _ _ => Or.inl rfl, fun e p _ _ => Or.inl rfl, fun p _ _ => Or.inl rfl,
      fun e p _ _ => Or.inl rfl, fun p _ _ => Or.inl rfl, fun p _ _ => Or.inl rfl⟩
  | succ f ih =>
    obtain ⟨ihP, ihU, ihFL, ihF, ihTL, ihT, ihCL, ihC, ihEL, ihE, ihAL, ihA,
      ihOL, ihO, ihX⟩ := ih
    refine ⟨primary_step tokens tl hl hkind f ihX,
      unary_step tokens tl hl hkind f ihU ihP,
      loop_step tokens tl hl hkind
        (fun k => k = .star ∨ k = .slash ∨ k = .percent)
        (fun k hk => by rcases hk with h | h | h <;> subst h <;>
          exact ⟨by decide, by decide⟩)
        parse_unary parse_factor_loop f (fun e p => rfl) ihU ihFL,
      level_step tokens parse_unary parse_factor_loop parse_factor f
        (fun p => rfl) ihU ihFL,
      loop_step tokens tl hl hkind
        (fun k => k = .plus ∨ k = .minus)
        (fun k hk => by rcases hk with h | h <;> subst h <;>
          exact ⟨by decide, by decide⟩)
        parse_factor parse_term_loop f (fun e p => rfl) ihF ihTL,
      level_step tokens parse_factor parse_term_loop parse_term f
        (fun p => rfl) ihF ihTL,
      loop_step tokens tl hl hkind
        (fun k => k = .less ∨ k = .lessEqual ∨ k = .greater ∨ k = .greaterEqual)
        (fun k hk => by rcases hk with h | h | h | h <;> subst h <;>
          exact ⟨by decide, by decide⟩)
        parse_term parse_comparison_loop f (fun e p => rfl) ihT ihCL,
      level_step tokens parse_term parse_comparison_loop parse_comparison f
        (fun p => rfl) ihT ihCL,
      loop_step tokens tl hl hkind
        (fun k => k = .equalEqual ∨ k = .bangEqual)
        (fun k hk => by rcases hk with h | h <;> subst h <;>
          exact ⟨by decide, by decide⟩)
        parse_comparison parse_equality_loop f (fun e p => rfl) ihC ihEL,
      level_step tokens parse_comparison parse_equality_loop parse_equality f
        (fun p => rfl) ihC ihEL,
      loop_step tokens tl hl hkind
        (fun k => k = .andKw)
        (fun k hk => by subst hk; exact ⟨by decide, by decide⟩)
        parse_equality parse_and_loop f (fun e p => rfl) ihE ihAL,
      level_step tokens parse_equality parse_and_loop parse_and f
        (fun p => rfl) ihE ihAL,
      loop_step tokens tl hl hkind
        (fun k => k = .orKw)
        (fun k hk => by subst hk; exact ⟨by decide, by decide⟩)
        parse_and parse_or_loop f (fun e p => rfl) ihA ihOL,
      level_step tokens parse_and parse_or_loop parse_or f
        (fun p => rfl) ihA ihOL,
      ?_⟩
    intro p hpt hpc
    rw [parse_expr]
    exact ihO p hpt hpc

/-- On a non-empty vector `reached_end` cannot underflow. -/
theorem reached_end_eq (p : PState) (n : Nat) (h : p.tokens.length = n + 1) :
    p.reached_end = .ok (decide (n ≤ p.cursor)) := by
  unfold PState.reached_end
  rw [h]

/-- `consume` never panics when the cursor is inside the vector. -/
theorem consume_safe (p : PState) (kind : TokenKind) (hpc : p.cursor < p.tokens.length) :
    ∃ r p', p.consume kind = .ok (r, p') ∧ p'.tokens = p.tokens ∧
      p'.cursor ≤ p.tokens.length := by
  obtain ⟨t, hg⟩ := exists_tok p hpc
  have hpk := peekT_eq p t hg
  unfold PState.consume
  rw [hpk]
  dsimp only
  by_cases hk : t.kind = kind
  · rw [if_pos hk, advanceT_eq p t hg]
    exact ⟨some t, _, rfl, rfl, hpc⟩
  · rw [if_neg hk]
    exact ⟨none, _, rfl, rfl, Nat.le_of_lt hpc⟩

/-- `parse_statement` either runs out of fuel or returns normally. -/
theorem parse_statement_safe (tokens : List Token) (tl : Token)
    (hl : tokens.getLast? = some tl) (hkind : tl.kind = .newline ∨ tl.kind = .eof)
    (fuel : Nat) (ihX : SafeExprFn tokens fuel parse_expr)
    (p : PState) (hpt : p.tokens = tokens) (hpc : p.cursor < tokens.length) :
    parse_statement fuel p = .error .fuelOut ∨
    ∃ os p', parse_statement fuel p = .ok (os, p') ∧ p'.tokens = tokens := by
  obtain ⟨t, hg⟩ := exists_tok p (by rw [hpt]; exact hpc)
  have hpk := peekT_eq p t hg
  have hexprPath : ∀ (q : PState), q.tokens = tokens → q.cursor < tokens.length →
      (match parse_expr fuel q with
        | .error e => .error e
        | .ok (none, p1) => .ok (none, p1)
        | .ok (some value, p1) =>
          match p1.consume .newline with
          | .error e => .error e
          | .ok (none, p2) => .ok (none, p2)
          | .ok (some _, p2) =>
            .ok (some (Statement.expr value), p2) :
            Except RtPanic (Option Statement × PState)) = .error .fuelOut ∨
      ∃ os p', (match parse_expr fuel q with
        | .error e => .error e
        | .ok (none, p1) => .ok (none, p1)
        | .ok (some value, p1) =>
          match p1.consume .newline with
          | .error e => .error e
          | .ok (none, p2) => .ok (none, p2)
          | .ok (some _, p2) =>
            .ok (some (Statement.expr value), p2) :
            Except RtPanic (Option Statement × PState)) = .ok (os, p') ∧
        p'.tokens = tokens := by
    intro q hqt hqc
    rcases ihX q hqt hqc with hfo | ⟨oe, p1, heq, h1a, h1b, h1c⟩
    · rw [hfo]; exact Or.inl rfl
    · rw [heq]
      rcases oe with _ | value
      · exact Or.inr ⟨none, p1, rfl, h1a⟩
      · dsimp only
        obtain ⟨r, p2, heq2, h2a, h2b⟩ := consume_safe p1 .newline
          (by rw [h1a]; exact h1c (by simp))
        rw [heq2]
        rcases r with _ | t2
        · exact Or.inr ⟨none, p2, rfl, h2a.trans h1a⟩
        · exact Or.inr ⟨some (.expr value), p2, rfl, h2a.trans h1a⟩
  unfold parse_statement
  rw [hpk]
  dsimp only
  rcases hk : t.kind <;> dsimp only
  case printKw =>
    have hc : p.consume .printKw = .ok (some t, { p with cursor := p.cursor + 1 }) := by
      unfold PState.consume
      rw [hpk]
      dsimp only
      rw [if_pos hk, advanceT_eq p t hg]
    unfold parse_print
    rw [hc]
    dsimp only
    have h1lt : p.cursor + 1 < tokens.length :=
      cursor_succ_lt tokens tl hl hkind p t hpt hg hpc
        (by rw [hk]; exact ⟨by decide, by decide⟩)
    rcases ihX { p with cursor := p.cursor + 1 } hpt h1lt with
      hfo | ⟨oe, p2, heq, h2a, h2b, h2c⟩
    · rw [hfo]; exact Or.inl rfl
    · rw [heq]
      rcases oe with _ | value
      · exact Or.inr ⟨none, p2, rfl, h2a⟩
      · dsimp only
        obtain ⟨r, p3, heq3, h3a, h3b⟩ := consume_safe p2 .newline
          (by rw [h2a]; exact h2c (by simp))
        rw [heq3]
        rcases r with _ | t3
        · exact Or.inr ⟨none, p3, rfl, h3a.trans h2a⟩
        · exact Or.inr ⟨some (.print value), p3, rfl, h3a.trans h2a⟩
  all_goals exact hexprPath p hpt hpc

/-- The `synchronize` scan never panics on a non-empty vector. -/
theorem synchronize_loop_safe (tokens : List Token) (n : Nat)
    (hn : tokens.length = n + 1) :
    ∀ (fuel : Nat) (p : PState), p.tokens = tokens →
    synchronize_loop fuel p = .error .fuelOut ∨
    ∃ p', synchronize_loop fuel p = .ok p' ∧ p'.tokens = tokens := by
  intro fuel
  induction fuel with
  | zero => intro p hpt; exact Or.inl rfl
  | succ f ih =>
    intro p hpt
    rw [synchronize_loop]
    rw [reached_end_eq p n (by rw [hpt]; exact hn)]
    by_cases hc : n ≤ p.cursor
    · rw [decide_eq_true hc]
      exact Or.inr ⟨p, rfl, hpt⟩
    · rw [decide_eq_false hc]
      dsimp only
      have hcl : p.cursor < tokens.length := by omega
      obtain ⟨t, hg⟩ := exists_tok p (by rw [hpt]; exact hcl)
      rw [peekT_eq p t hg]
      dsimp only
      rcases hk : t.kind <;> dsimp only
      all_goals first
        | exact Or.inr ⟨p, rfl, hpt⟩
        | (rw [advanceT_eq p t hg]
           first
             | exact Or.inr ⟨_, rfl, hpt⟩
             | exact ih _ hpt)

/-- `synchronize` never panics on a non-empty vector. -/
theorem synchronize_safe (tokens : List Token) (n : Nat)
    (hn : tokens.length = n + 1) (fuel : Nat) (p : PState) (hpt : p.tokens = tokens) :
    synchronize fuel p = .error .fuelOut ∨
    ∃ p', synchronize fuel p = .ok p' ∧ p'.tokens = tokens := by
  unfold synchronize
  rw [reached_end_eq p n (by rw [hpt]; exact hn)]
  by_cases hc : n ≤ p.cursor
  · rw [decide_eq_true hc]
    exact synchronize_loop_safe tokens n hn fuel p hpt
  · rw [decide_eq_false hc]
    dsimp only
    have hcl : p.cursor < tokens.length := by omega
    obtain ⟨t, hg⟩ := exists_tok p (by rw [hpt]; exact hcl)
    rw [advanceT_eq p t hg]
    exact synchronize_loop_safe tokens n hn fuel _ hpt

/-- The statement-collection loop never panics on a sentinel-terminated
vector: it runs out of fuel or returns normally. -/
theorem collect_statements_loop_safe (tokens : List Token) (tl : Token) (n : Nat)
    (hl : tokens.getLast? = some tl) (hkind : tl.kind = .newline ∨ tl.kind = .eof)
    (hn : tokens.length = n + 1) :
    ∀ (fuel : Nat) (p : PState), p.tokens = tokens →
    collect_statements_loop fuel p = .error .fuelOut ∨
    ∃ res, collect_statements_loop fuel p = .ok res := by
  intro fuel
  induction fuel with
  | zero => intro p hpt; exact Or.inl rfl
  | succ f ih =>
    intro p hpt
    rw [collect_statements_loop]
    rw [reached_end_eq p n (by rw [hpt]; exact hn)]
    by_cases hc : n ≤ p.cursor
    · rw [decide_eq_true hc]
      exact Or.inr ⟨_, rfl⟩
    · rw [decide_eq_false hc]
      dsimp only
      have hcl : p.cursor < tokens.length := by omega
      have hX : SafeExprFn tokens f parse_expr :=
        (ladder_safe tokens tl hl hkind f).2.2.2.2.2.2.2.2.2.2.2.2.2.2
      rcases parse_statement_safe tokens tl hl hkind f hX p hpt hcl with
        hfo | ⟨os, p1, heq, h1a⟩
      · rw [hfo]; exact Or.inl rfl
      · rw [heq]
        rcases os with _ | s
        · dsimp only
          rcases synchronize_safe tokens n hn f p1 h1a with hfo2 | ⟨p2, heq2, h2a⟩
          · rw [hfo2]; exact Or.inl rfl
          · rw [heq2]
            dsimp only
            rcases ih p2 h2a with hfo3 | ⟨res3, heq3⟩
            · rw [hfo3]; exact Or.inl rfl
            · rw [heq3]
              rcases res3 with ⟨rest, err2, p3⟩
              exact Or.inr ⟨_, rfl⟩
        · dsimp only
          rcases ih p1 h1a with hfo3 | ⟨res3, heq3⟩
          · rw [hfo3]; exact Or.inl rfl
          · rw [heq3]
            rcases res3 with ⟨rest, err2, p3⟩
            exact Or.inr ⟨_, rfl⟩

/-- Claim C3: the parser is total only on token vectors ending in a
statement-terminating sentinel. The source `"1 + 2"` (no trailing
newline) is accepted by the lexer and lexes to `[Number, Plus, Number]`
with no `Newline` or `Eof`; parsing it indexes the token vector out of
bounds (a panic). On an empty token vector `reached_end` computes
`tokens.len() - 1` with `len = 0`, an unsigned-integer underflow. And for
every token vector whose last token is `Newline` or `Eof`, no
out-of-range access or underflow ever occurs: a run of
`collect_statements` at any fuel either completes normally or runs out of
fuel — never an index or arithmetic panic. -/
theorem C3_parser_bounds :
    (lex "1 + 2" = (some [⟨.literal (.number 1), ⟨0, 0⟩⟩, ⟨.plus, ⟨0, 2⟩⟩,
      ⟨.literal (.number 2), ⟨0, 4⟩⟩], []) ∧
     parseProgram [⟨.literal (.number 1), ⟨0, 0⟩⟩, ⟨.plus, ⟨0, 2⟩⟩,
      ⟨.literal (.number 2), ⟨0, 4⟩⟩] = .error .indexOutOfBounds) ∧
    (PState.reached_end ⟨[], 0, []⟩ = .error .usizeUnderflow ∧
     parseProgram [] = .error .usizeUnderflow) ∧
    (∀ (tokens : List Token) (tl : Token) (fuel : Nat),
      tokens.getLast? = some tl → (tl.kind = .newline ∨ tl.kind = .eof) →
      ∀ r, collect_statements fuel tokens = .error r → r = .fuelOut) := by
  refine ⟨⟨rfl, rfl⟩, ⟨rfl, rfl⟩, ?_⟩
  intro tokens tl fuel hl hkind r hr
  have hne : tokens ≠ [] := by intro h; rw [h] at hl; cases hl
  obtain ⟨n, hn⟩ : ∃ n, tokens.length = n + 1 := by
    rcases tokens with _ | ⟨a, b⟩
    · exact absurd rfl hne
    · exact ⟨b.length, rfl⟩
  unfold collect_statements at hr
  rcases collect_statements_loop_safe tokens tl n hl hkind hn fuel ⟨tokens, 0, []⟩ rfl with
    hfo | ⟨res, hok⟩
  · rw [hfo] at hr
    exact (Except.error.inj hr).symm
  · rw [hok] at hr
    rcases res with ⟨stmts, err, p⟩
    cases hr

/-- Claim C3, witness: `C3_parser_bounds` instantiated at the one-token
vector `[Newline]` with zero fuel, whose run is a fuel-out. -/
theorem C3_witness : RtPanic.fuelOut = RtPanic.fuelOut :=
  C3_parser_bounds.2.2 [⟨.newline, ⟨0, 0⟩⟩] ⟨.newline, ⟨0, 0⟩⟩ 0 rfl
    (Or.inl rfl) .fuelOut rfl

/-! ## Delimiter-balance development (claim C8) -/

/-- The per-kind opener stack of the lexer state. -/
def delimStack : DelimKind → LexState → List Position
  | .paren, st => st.parenStack
  | .brace, st => st.braceStack
  | .bracket, st => st.bracketStack

/-- The unmatched-closing diagnostic of one delimiter kind. -/
def closingDiag : DelimKind → Position → LexDiag
  | .paren, pos => .unmatchedRightParen pos
  | .brace, pos => .unmatchedRightBrace pos
  | .bracket, pos => .unmatchedRightBracket pos

/-- The unmatched-opening diagnostic of one delimiter kind. -/
def openingDiag : DelimKind → Position → LexDiag
  | .paren, pos => .unmatchedLeftParen pos
  | .brace, pos => .unmatchedLeftBrace pos
  | .bracket, pos => .unmatchedLeftBracket pos

/-- Recognizer for the unmatched-closing diagnostics of one kind. -/
def isClosing : DelimKind → LexDiag → Bool
  | .paren, .unmatchedRightParen _ => true
  | .brace, .unmatchedRightBrace _ => true
  | .bracket, .unmatchedRightBracket _ => true
  | _, _ => false

/-- Recognizer for the unmatched-opening diagnostics of one kind. -/
def isOpening : DelimKind → LexDiag → Bool
  | .paren, .unmatchedLeftParen _ => true
  | .brace, .unmatchedLeftBrace _ => true
  | .bracket, .unmatchedLeftBracket _ => true
  | _, _ => false

/-- Recognizer for all six delimiter diagnostics. -/
def isDelimDiag (d : LexDiag) : Bool :=
  match d with
  | .unmatchedRightParen _ | .unmatchedRightBrace _ | .unmatchedRightBracket _
  | .unmatchedLeftParen _ | .unmatchedLeftBrace _ | .unmatchedLeftBracket _ => true
  | _ => false

/-- Number of unmatched-closing diagnostics of one kind in a transcript. -/
def closingCount (k : DelimKind) (ds : List LexDiag) : Nat :=
  (ds.filter (isClosing k)).length

/-- Number of unmatched-opening diagnostics of one kind in a transcript. -/
def openingCount (k : DelimKind) (ds : List LexDiag) : Nat :=
  (ds.filter (isOpening k)).length

/-- Specification-side balance of the delimiter occurrences of one kind:
the running open count never goes negative and ends at zero. -/
def balK (k : DelimKind) : List DelimEvent → Nat → Bool
  | [], d => d = 0
  | .opener k' _ :: es, d => if k' = k then balK k es (d + 1) else balK k es d
  | .closer k' _ :: es, d =>
    if k' = k then
      match d with
      | 0 => false
      | d' + 1 => balK k es d'
    else balK k es d

/-- Balance of all three delimiter kinds. -/
def balancedAll (es : List DelimEvent) : Bool :=
  balK .paren es 0 && balK .brace es 0 && balK .bracket es 0

/-- Reference stack machine over a delimiter-event list: final stack of
unmatched openers of the kind, and the number of pops on an empty stack. -/
def stackRun (k : DelimKind) : List DelimEvent → List Position → List Position × Nat
  | [], s => (s, 0)
  | .opener k' pos :: es, s =>
    if k' = k then stackRun k es (pos :: s) else stackRun k es s
  | .closer k' _ :: es, s =>
    if k' = k then
      match s with
      | [] => let r := stackRun k es []; (r.1, r.2 + 1)
      | _ :: rest => stackRun k es rest
    else stackRun k es s

/-- The stack machine composes over event-list concatenation. -/
theorem stackRun_append (k : DelimKind) (a b : List DelimEvent) (s : List Position) :
    stackRun k (a ++ b) s =
      ((stackRun k b (stackRun k a s).1).1,
        (stackRun k a s).2 + (stackRun k b (stackRun k a s).1).2) := by
  induction a generalizing s with
  | nil => simp [stackRun]
  | cons e es ih =>
    rcases e with ⟨k', pos⟩ | ⟨k', pos⟩
    · by_cases hk : k' = k <;> simp [stackRun, hk, ih]
    · by_cases hk : k' = k
      · rcases s with _ | ⟨x, rest⟩
        · simp [stackRun, hk, ih]
          omega
        · simp [stackRun, hk, ih]
      · simp [stackRun, hk, ih]

/-- On a balanced event list the stack machine ends empty and never pops
an empty stack. -/
theorem bal_stackRun (k : DelimKind) (es : List DelimEvent) :
    ∀ s : List Position, balK k es s.length = true → stackRun k es s = ([], 0) := by
  induction es with
  | nil =>
    intro s h
    simp [balK] at h
    rw [h]
    rfl
  | cons e es ih =>
    intro s h
    rcases e with ⟨k', pos⟩ | ⟨k', pos⟩
    · by_cases hk : k' = k
      · simp [balK, hk] at h
        rw [show s.length + 1 = (pos :: s).length from rfl] at h
        simp [stackRun, hk]
        exact ih (pos :: s) h
      · simp [balK, hk] at h
        simp [stackRun, hk]
        exact ih s h
    · by_cases hk : k' = k
      · simp [balK, hk] at h
        rcases s with _ | ⟨x, rest⟩
        · simp at h
        · simp at h
          simp [stackRun, hk]
          exact ih rest h
      · simp [balK, hk] at h
        simp [stackRun, hk]
        exact ih s h

/-- Simulation relation of a lexer scan segment: the events grew by
`delta`, the stacks follow the reference stack machine on `delta`, the
unmatched-closing diagnostics grew by exactly the machine's violation
count, and no unmatched-opening diagnostic was emitted. -/
def DelimSim (st st' : LexState) (delta : List DelimEvent) : Prop :=
  st'.events = st.events ++ delta ∧
  ∀ k, delimStack k st' = (stackRun k delta (delimStack k st)).1 ∧
    closingCount k st'.diags =
      closingCount k st.diags + (stackRun k delta (delimStack k st)).2 ∧
    openingCount k st'.diags = openingCount k st.diags

/-- As `DelimSim`, for a completed scan: the post-loop reporting has also
emitted one unmatched-opening diagnostic per position left on a stack. -/
def DelimSimDone (st st' : LexState) (delta : List DelimEvent) : Prop :=
  st'.events = st.events ++ delta ∧
  ∀ k, closingCount k st'.diags =
      closingCount k st.diags + (stackRun k delta (delimStack k st)).2 ∧
    openingCount k st'.diags =
      openingCount k st.diags + ((stackRun k delta (delimStack k st)).1).length

theorem delimSim_refl (st : LexState) : DelimSim st st [] :=
  ⟨by simp, fun k => ⟨rfl, by simp [stackRun], rfl⟩⟩

theorem delimSim_trans {st st1 st2 : LexState} {d1 d2 : List DelimEvent}
    (h1 : DelimSim st st1 d1) (h2 : DelimSim st1 st2 d2) :
    DelimSim st st2 (d1 ++ d2) := by
  obtain ⟨he1, hk1⟩ := h1
  obtain ⟨he2, hk2⟩ := h2
  refine ⟨by rw [he2, he1, List.append_assoc], fun k => ?_⟩
  obtain ⟨hs1, hc1, ho1⟩ := hk1 k
  obtain ⟨hs2, hc2, ho2⟩ := hk2 k
  rw [stackRun_append]
  exact ⟨by rw [hs2, hs1], by rw [hc2, hc1, hs1]; omega, by rw [ho2, ho1]⟩

theorem delimSimDone_trans {st st1 st2 : LexState} {d1 d2 : List DelimEvent}
    (h1 : DelimSim st st1 d1) (h2 : DelimSimDone st1 st2 d2) :
    DelimSimDone st st2 (d1 ++ d2) := by
  obtain ⟨he1, hk1⟩ := h1
  obtain ⟨he2, hk2⟩ := h2
  refine ⟨by rw [he2, he1, List.append_assoc], fun k => ?_⟩
  obtain ⟨hs1, hc1, ho1⟩ := hk1 k
  obtain ⟨hc2, ho2⟩ := hk2 k
  rw [stackRun_append]
  exact ⟨by rw [hc2, hc1, hs1]; omega, by rw [ho2, ho1, hs1]⟩

theorem isClosing_delim {k : DelimKind} {d : LexDiag} (h : isClosing k d = true) :
    isDelimDiag d = true := by
  rcases k <;> rcases d <;> simp_all [isClosing, isDelimDiag]

theorem isOpening_delim {k : DelimKind} {d : LexDiag} (h : isOpening k d = true) :
    isDelimDiag d = true := by
  rcases k <;> rcases d <;> simp_all [isOpening, isDelimDiag]

theorem closingCount_append (k : DelimKind) (a b : List LexDiag) :
    closingCount k (a ++ b) = closingCount k a + closingCount k b := by
  simp [closingCount, List.filter_append]

theorem openingCount_append (k : DelimKind) (a b : List LexDiag) :
    openingCount k (a ++ b) = openingCount k a + openingCount k b := by
  simp [openingCount, List.filter_append]

theorem closingCount_nondelim (k : DelimKind) (ds : List LexDiag)
    (h : ∀ d ∈ ds, isDelimDiag d = false) : closingCount k ds = 0 := by
  have : ds.filter (isClosing k) = [] := by
    rw [List.filter_eq_nil_iff]
    intro d hd hc
    exact absurd (isClosing_delim hc) (by rw [h d hd]; simp)
  simp [closingCount, this]

theorem openingCount_nondelim (k : DelimKind) (ds : List LexDiag)
    (h : ∀ d ∈ ds, isDelimDiag d = false) : openingCount k ds = 0 := by
  have : ds.filter (isOpening k) = [] := by
    rw [List.filter_eq_nil_iff]
    intro d hd hc
    exact absurd (isOpening_delim hc) (by rw [h d hd]; simp)
  simp [openingCount, this]

theorem delimSim_untouched (st st' : LexState)
    (hp : st'.parenStack = st.parenStack) (hb : st'.braceStack = st.braceStack)
    (hbk : st'.bracketStack = st.bracketStack) (he : st'.events = st.events)
    (ds : List LexDiag) (hd : st'.diags = st.diags ++ ds)
    (hnd : ∀ d ∈ ds, isDelimDiag d = false) :
    DelimSim st st' [] := by
  refine ⟨by simp [he], fun k => ?_⟩
  refine ⟨?_, ?_, ?_⟩
  · rcases k <;> simp [stackRun, delimStack, hp, hb, hbk]
  · rw [hd, closingCount_append, closingCount_nondelim k ds hnd]
    simp [stackRun]
  · rw [hd, openingCount_append, openingCount_nondelim k ds hnd]
    omega

theorem skip_whitespace_sim (st : LexState) : DelimSim st (skip_whitespace st) [] :=
  delimSim_untouched st _ rfl rfl rfl rfl [] (by simp [skip_whitespace]) (by simp)

theorem skip_line_sim (st : LexState) : DelimSim st (skip_line st) [] :=
  delimSim_untouched st _ rfl rfl rfl rfl [] (by simp [skip_line]) (by simp)

theorem collect_identifier_sim (st : LexState) :
    DelimSim st (collect_identifier st).2 [] :=
  delimSim_untouched st _ rfl rfl rfl rfl [] (by simp [collect_identifier]) (by simp)

theorem collect_number_sim (st : LexState) :
    DelimSim st (collect_number st).2 [] := by
  unfold collect_number
  dsimp only
  split
  · exact delimSim_untouched st _ rfl rfl rfl rfl [] (by simp) (by simp)
  · exact delimSim_untouched st _ rfl rfl rfl rfl
      [.failedParseNumber (collect_number_go st.rest st.pos "" false).1 st.pos]
      (by simp [LexState.emit]) (by simp [isDelimDiag])

theorem collect_string_go_nondelim :
    ∀ (cs : List Char) (pos : Position) (acc : String) (esc : Bool) (ep : Position)
      (d : LexDiag), (collect_string_go cs pos acc esc ep).1 = .bad d →
      isDelimDiag d = false := by
  intro cs
  induction cs with
  | nil => intro pos acc esc ep d h; simp [collect_string_go] at h
  | cons c rest ih =>
    intro pos acc esc ep d h
    rw [collect_string_go] at h
    repeat' split at h
    all_goals first
      | exact ih _ _ _ _ _ h
      | (cases h; simp [isDelimDiag])
      | simp_all [isDelimDiag]

theorem collect_string_sim (st : LexState) :
    DelimSim st (collect_string st).2 [] := by
  unfold collect_string
  dsimp only
  split
  next d r p heq =>
    exact delimSim_untouched st _ (by simp [LexState.emit]) (by simp [LexState.emit])
      (by simp [LexState.emit]) (by simp [LexState.emit]) [d] (by simp [LexState.emit])
      (by simpa using collect_string_go_nondelim _ _ _ _ _ d (by rw [heq]))
  next lexemme r p heq =>
    split
    · exact delimSim_untouched st _ (by simp [LexState.emit]) (by simp [LexState.emit])
        (by simp [LexState.emit]) (by simp [LexState.emit]) [.unterminatedString st.pos]
        (by simp [LexState.emit]) (by simp [isDelimDiag])
    · exact delimSim_untouched st _ (by simp) (by simp) (by simp) (by simp) [] (by simp)
        (by simp)

theorem collect_newline_sim (st : LexState) (prev : Option Token) :
    DelimSim st (collect_newline st prev).2 [] := by
  unfold collect_newline
  rcases prev with _ | t
  · exact delimSim_untouched st _ (by simp) (by simp) (by simp) (by simp) [] (by simp) (by simp)
  · dsimp only
    split
    · exact delimSim_untouched st _ (by simp) (by simp) (by simp) (by simp) [] (by simp) (by simp)
    · exact delimSim_untouched st _ (by simp) (by simp) (by simp) (by simp) [] (by simp) (by simp)

theorem collect_symbol_sim (st : LexState) :
    ∃ delta, DelimSim st (collect_symbol st).2 delta := by
  unfold collect_symbol
  dsimp only
  split
  · -- '('
    refine ⟨[.opener .paren st.pos], ?_, fun k => ?_⟩
    · simp [LexState.recordEvent]
    · rcases k <;>
        simp [delimStack, stackRun, LexState.recordEvent, closingCount, openingCount]
  · -- ')'
    split
    · -- non-empty stack
      next x tail heq =>
      refine ⟨[.closer .paren st.pos], ?_, fun k => ?_⟩
      · simp [LexState.recordEvent]
      · simp only [LexState.recordEvent] at heq
        simp only [LexState.advance_parenStack] at heq
        rcases k <;>
          simp [delimStack, stackRun, LexState.recordEvent, closingCount, openingCount, heq]
    · -- empty stack
      next heq =>
      refine ⟨[.closer .paren st.pos], ?_, fun k => ?_⟩
      · simp [LexState.recordEvent, LexState.emit]
      · simp only [LexState.recordEvent] at heq
        simp only [LexState.advance_parenStack] at heq
        rcases k <;>
          simp [delimStack, stackRun, LexState.recordEvent, LexState.emit, closingCount,
            openingCount, heq, List.filter_append, isClosing, isOpening]
  · -- '{'
    refine ⟨[.opener .brace st.pos], ?_, fun k => ?_⟩
    · simp [LexState.recordEvent]
    · rcases k <;>
        simp [delimStack, stackRun, LexState.recordEvent, closingCount, openingCount]
  · -- '}'
    split
    · next x tail heq =>
      refine ⟨[.closer .brace st.pos], ?_, fun k => ?_⟩
      · simp [LexState.recordEvent]
      · simp only [LexState.recordEvent] at heq
        simp only [LexState.advance_braceStack] at heq
        rcases k <;>
          simp [delimStack, stackRun, LexState.recordEvent, closingCount, openingCount, heq]
    · next heq =>
      refine ⟨[.closer .brace st.pos], ?_, fun k => ?_⟩
      · simp [LexState.recordEvent, LexState.emit]
      · simp only [LexState.recordEvent] at heq
        simp only [LexState.advance_braceStack] at heq
        rcases k <;>
          simp [delimStack, stackRun, LexState.recordEvent, LexState.emit, closingCount,
            openingCount, heq, List.filter_append, isClosing, isOpening]
  · -- '['
    refine ⟨[.opener .bracket st.pos], ?_, fun k => ?_⟩
    · simp [LexState.recordEvent]
    · rcases k <;>
        simp [delimStack, stackRun, LexState.recordEvent, closingCount, openingCount]
  · -- ']'
    split
    · next x tail heq =>
      refine ⟨[.closer .bracket st.pos], ?_, fun k => ?_⟩
      · simp [LexState.recordEvent]
      · simp only [LexState.recordEvent] at heq
        simp only [LexState.advance_bracketStack] at heq
        rcases k <;>
          simp [delimStack, stackRun, LexState.recordEvent, closingCount, openingCount, heq]
    · next heq =>
      refine ⟨[.closer .bracket st.pos], ?_, fun k => ?_⟩
      · simp [LexState.recordEvent, LexState.emit]
      · simp only [LexState.recordEvent] at heq
        simp only [LexState.advance_bracketStack] at heq
        rcases k <;>
          simp [delimStack, stackRun, LexState.recordEvent, LexState.emit, closingCount,
            openingCount, heq, List.filter_append, isClosing, isOpening]
  · exact ⟨[], delimSim_untouched st _ (by simp) (by simp) (by simp) (by simp) [] (by simp)
      (by simp)⟩
  · exact ⟨[], delimSim_untouched st _ (by simp) (by simp) (by simp) (by simp) [] (by simp)
      (by simp)⟩
  · exact ⟨[], delimSim_untouched st _ (by simp) (by simp) (by simp) (by simp) [] (by simp)
      (by simp)⟩
  · exact ⟨[], delimSim_untouched st _ (by simp) (by simp) (by simp) (by simp) [] (by simp)
      (by simp)⟩
  · exact ⟨[], delimSim_untouched st _ (by simp) (by simp) (by simp) (by simp) [] (by simp)
      (by simp)⟩
  · split <;>
      exact ⟨[], delimSim_untouched st _ (by simp) (by simp) (by simp) (by simp) [] (by simp)
        (by simp)⟩
  · split <;>
      exact ⟨[], delimSim_untouched st _ (by simp) (by simp) (by simp) (by simp) [] (by simp)
        (by simp)⟩
  · split <;>
      exact ⟨[], delimSim_untouched st _ (by simp) (by simp) (by simp) (by simp) [] (by simp)
        (by simp)⟩
  · split <;>
      exact ⟨[], delimSim_untouched st _ (by simp) (by simp) (by simp) (by simp) [] (by simp)
        (by simp)⟩
  · exact ⟨[], delimSim_untouched st _ (by simp) (by simp) (by simp) (by simp) [] (by simp)
      (by simp)⟩
  · exact ⟨[], delimSim_untouched st _ (by simp [LexState.emit]) (by simp [LexState.emit])
      (by simp [LexState.emit]) (by simp [LexState.emit])
      [.unrecognizedSymbol ((st.advance).1) st.pos] (by simp [LexState.emit])
      (by simp [isDelimDiag])⟩

theorem stepRes_snd_tok (pr : Option Token × LexState) :
    ((match pr with
      | (some t, st3) => (StepRes.token t, st3)
      | (none, st3) => (StepRes.err, st3) : StepRes × LexState)).2 = pr.2 := by
  rcases pr with ⟨_ | t, s⟩ <;> rfl

theorem stepRes_snd_nl (pr : Option Token × LexState) :
    ((match pr with
      | (some t, st3) => (StepRes.token t, st3)
      | (none, st3) => (StepRes.skip, st3) : StepRes × LexState)).2 = pr.2 := by
  rcases pr with ⟨_ | t, s⟩ <;> rfl

theorem lexStep_sim (st : LexState) (toks : List Token) :
    ∃ delta, DelimSim st (lexStep st toks).2 delta := by
  unfold lexStep
  dsimp only
  set stp := (if (skip_whitespace st).peekc = '#' then
      skip_whitespace (skip_line (skip_whitespace st))
    else skip_whitespace st) with hstp
  have hpre : DelimSim st stp [] := by
    rw [hstp]
    split
    · exact delimSim_trans (delimSim_trans (skip_whitespace_sim st) (skip_line_sim _))
        (skip_whitespace_sim _)
    · exact skip_whitespace_sim st
  split
  · rw [stepRes_snd_tok]
    exact ⟨_, delimSim_trans hpre (collect_identifier_sim _)⟩
  · split
    · rw [stepRes_snd_tok]
      exact ⟨_, delimSim_trans hpre (collect_number_sim _)⟩
    · split
      · rw [stepRes_snd_tok]
        exact ⟨_, delimSim_trans hpre (collect_string_sim _)⟩
      · split
        · rw [stepRes_snd_nl]
          exact ⟨_, delimSim_trans hpre (collect_newline_sim _ _)⟩
        · rw [stepRes_snd_tok]
          obtain ⟨d, hd⟩ := collect_symbol_sim stp
          exact ⟨_, delimSim_trans hpre hd⟩

theorem isClosing_openingDiag (k k' : DelimKind) (pos : Position) :
    isClosing k (openingDiag k' pos) = false := by
  rcases k <;> rcases k' <;> rfl

theorem isOpening_openingDiag (k k' : DelimKind) (pos : Position) :
    isOpening k (openingDiag k' pos) = decide (k = k') := by
  rcases k <;> rcases k' <;> rfl

theorem closingCount_map_opening (k k' : DelimKind) (l : List Position) :
    closingCount k (l.map (openingDiag k')) = 0 := by
  induction l with
  | nil => rfl
  | cons x xs ih =>
    simp only [List.map_cons, closingCount, List.filter_cons, isClosing_openingDiag]
    exact ih

theorem openingCount_map_opening (k k' : DelimKind) (l : List Position) :
    openingCount k (l.map (openingDiag k')) = if k = k' then l.length else 0 := by
  induction l with
  | nil => simp [openingCount]
  | cons x xs ih =>
    by_cases hk : k = k' <;>
      simp_all [openingCount, isOpening_openingDiag, List.filter, hk]

theorem closingCount_reverse (k : DelimKind) (l : List LexDiag) :
    closingCount k l.reverse = closingCount k l := by
  simp [closingCount, List.filter_reverse]

theorem openingCount_reverse (k : DelimKind) (l : List LexDiag) :
    openingCount k l.reverse = openingCount k l := by
  simp [openingCount, List.filter_reverse]

theorem report_done (st : LexState) : DelimSimDone st (reportUnmatched st).1 [] := by
  have hmaps : (reportUnmatched st).1.diags = st.diags
      ++ st.parenStack.reverse.map (openingDiag .paren)
      ++ st.braceStack.reverse.map (openingDiag .brace)
      ++ st.bracketStack.reverse.map (openingDiag .bracket) := rfl
  refine ⟨by simp [reportUnmatched], fun k => ?_⟩
  constructor
  · rw [hmaps]
    simp [closingCount_append, closingCount_map_opening, closingCount_reverse, stackRun]
  · rw [hmaps]
    simp only [openingCount_append, openingCount_map_opening, openingCount_reverse,
      stackRun, List.map_reverse, List.length_reverse]
    rcases k <;> simp [delimStack, closingCount_map_opening, openingCount_map_opening]

theorem collect_tokens_loop_sim :
    ∀ (fuel : Nat) (st : LexState) (toks : List Token) (err : Bool),
    ∃ delta,
      (∀ t e s', collect_tokens_loop fuel st toks err = .fuelOut t e s' →
        DelimSim st s' delta) ∧
      (∀ t e s', collect_tokens_loop fuel st toks err = .done t e s' →
        DelimSimDone st s' delta) := by
  intro fuel
  induction fuel with
  | zero =>
    intro st toks err
    refine ⟨[], ?_, ?_⟩
    · intro t e s' h
      cases h
      exact delimSim_refl st
    · intro t e s' h
      cases h
  | succ f ih =>
    intro st toks err
    rw [collect_tokens_loop]
    split
    · rcases hru : reportUnmatched st with ⟨st1, found⟩
      dsimp only
      refine ⟨[], ?_, ?_⟩
      · intro t e s' h
        cases h
      · intro t e s' h
        cases h
        have hr := report_done st
        rw [hru] at hr
        exact hr
    · obtain ⟨d1, hstep⟩ := lexStep_sim st toks
      rcases hls : lexStep st toks with ⟨res, st'⟩
      have hstep' : DelimSim st st' d1 := by rw [hls] at hstep; exact hstep
      rcases res with t | _ | _ <;> dsimp only
      · obtain ⟨d2, hfo2, hdn2⟩ := ih st' (toks ++ [t]) err
        exact ⟨d1 ++ d2, fun t2 e2 s2 h => delimSim_trans hstep' (hfo2 t2 e2 s2 h),
          fun t2 e2 s2 h => delimSimDone_trans hstep' (hdn2 t2 e2 s2 h)⟩
      · obtain ⟨d2, hfo2, hdn2⟩ := ih st' toks true
        exact ⟨d1 ++ d2, fun t2 e2 s2 h => delimSim_trans hstep' (hfo2 t2 e2 s2 h),
          fun t2 e2 s2 h => delimSimDone_trans hstep' (hdn2 t2 e2 s2 h)⟩
      · obtain ⟨d2, hfo2, hdn2⟩ := ih st' toks err
        exact ⟨d1 ++ d2, fun t2 e2 s2 h => delimSim_trans hstep' (hfo2 t2 e2 s2 h),
          fun t2 e2 s2 h => delimSimDone_trans hstep' (hdn2 t2 e2 s2 h)⟩

theorem count_pos_of_mem (p : LexDiag → Bool) (d : LexDiag) (ds : List LexDiag)
    (hd : d ∈ ds) (hp : p d = true) : (ds.filter p).length ≠ 0 := by
  intro h0
  rw [List.length_eq_zero] at h0
  exact absurd (List.mem_filter.2 ⟨hd, hp⟩) (by simp [h0])

theorem delim_filter_nil (ds : List LexDiag)
    (h : ∀ k, closingCount k ds = 0 ∧ openingCount k ds = 0) :
    ds.filter isDelimDiag = [] := by
  rw [List.filter_eq_nil_iff]
  intro d hd hdd
  rcases d <;> simp [isDelimDiag] at hdd
  case unmatchedRightParen pos =>
    exact count_pos_of_mem (isClosing .paren) _ ds hd (by simp [isClosing]) (h .paren).1
  case unmatchedRightBrace pos =>
    exact count_pos_of_mem (isClosing .brace) _ ds hd (by simp [isClosing]) (h .brace).1
  case unmatchedRightBracket pos =>
    exact count_pos_of_mem (isClosing .bracket) _ ds hd (by simp [isClosing]) (h .bracket).1
  case unmatchedLeftParen pos =>
    exact count_pos_of_mem (isOpening .paren) _ ds hd (by simp [isOpening]) (h .paren).2
  case unmatchedLeftBrace pos =>
    exact count_pos_of_mem (isOpening .brace) _ ds hd (by simp [isOpening]) (h .brace).2
  case unmatchedLeftBracket pos =>
    exact count_pos_of_mem (isOpening .bracket) _ ds hd (by simp [isOpening]) (h .bracket).2

theorem openingDiag_inj (k k' : DelimKind) (x pos : Position) :
    (openingDiag k' x = openingDiag k pos) ↔ (k' = k ∧ x = pos) := by
  rcases k <;> rcases k' <;> simp [openingDiag]

theorem count_map_openingDiag (k k' : DelimKind) (pos : Position) (l : List Position) :
    (l.map (openingDiag k')).count (openingDiag k pos) =
      if k' = k then l.count pos else 0 := by
  induction l with
  | nil => simp
  | cons x xs ih =>
    by_cases hk : k' = k
    · subst hk
      by_cases hx : x = pos
      · subst hx
        simp [List.count_cons, ih, openingDiag_inj]
      · simp [List.count_cons, ih, openingDiag_inj, hx]
    · simp [List.count_cons, ih, openingDiag_inj, hk]

/-- Claim C8: an input whose delimiter occurrences (the `( ) { } [ ]`
characters processed by `collect_symbol`, i.e. outside strings and
comments) are balanced per kind produces zero delimiter diagnostics; a
closing delimiter arriving while its per-kind stack is empty yields
exactly one unmatched-closing error at that character's position, the
token being omitted while the scan state advances; and the post-scan
report emits exactly one unmatched-opening error per position remaining
on any opener stack, at that opener's position. -/
theorem C8_delimiter_balance :
    (∀ (fuel : Nat) (src : List Char),
      balancedAll ((collect_tokens_loop fuel (LexState.init src) [] false).state.events) =
        true →
      ((collect_tokens_loop fuel (LexState.init src) [] false).state.diags).filter
        isDelimDiag = []) ∧
    (∀ st : LexState, st.peekc = ')' → st.parenStack = [] →
      collect_symbol st = (none,
        (((st.advance).2).recordEvent (.closer .paren st.pos)).emit
          (.unmatchedRightParen st.pos))) ∧
    (∀ st : LexState, st.peekc = '}' → st.braceStack = [] →
      collect_symbol st = (none,
        (((st.advance).2).recordEvent (.closer .brace st.pos)).emit
          (.unmatchedRightBrace st.pos))) ∧
    (∀ st : LexState, st.peekc = ']' → st.bracketStack = [] →
      collect_symbol st = (none,
        (((st.advance).2).recordEvent (.closer .bracket st.pos)).emit
          (.unmatchedRightBracket st.pos))) ∧
    (∀ (st : LexState) (k : DelimKind) (pos : Position),
      ((reportUnmatched st).1.diags).count (openingDiag k pos) =
        (st.diags).count (openingDiag k pos) + ((delimStack k st).count pos)) := by
  refine ⟨?_, ?_, ?_, ?_, ?_⟩
  · intro fuel src hbal
    obtain ⟨delta, hfo, hdn⟩ := collect_tokens_loop_sim fuel (LexState.init src) [] false
    rcases hout : collect_tokens_loop fuel (LexState.init src) [] false with
      ⟨t, e, s'⟩ | ⟨t, e, s'⟩
    · have hd := hdn t e s' hout
      obtain ⟨hev, hk⟩ := hd
      have hdelta : delta = s'.events := by simpa [LexState.init] using hev.symm
      subst hdelta
      simp only [LexOut.state]
      apply delim_filter_nil
      intro k
      obtain ⟨hc, ho⟩ := hk k
      have hbal3 : (balK .paren s'.events 0 = true ∧ balK .brace s'.events 0 = true) ∧
          balK .bracket s'.events 0 = true := by
        have := hbal
        rw [hout] at this
        simpa [balancedAll, Bool.and_eq_true, LexOut.state, and_assoc] using this
      have hrun : stackRun k s'.events (delimStack k (LexState.init src)) = ([], 0) := by
        have hstack : delimStack k (LexState.init src) = [] := by
          rcases k <;> rfl
        rw [hstack]
        rcases k with _ | _ | _
        · exact bal_stackRun .paren s'.events [] hbal3.1.1
        · exact bal_stackRun .brace s'.events [] hbal3.1.2
        · exact bal_stackRun .bracket s'.events [] hbal3.2
      constructor
      · rw [hc, hrun]
        simp [LexState.init, closingCount]
      · rw [ho, hrun]
        simp [LexState.init, openingCount]
    · have hd := hfo t e s' hout
      obtain ⟨hev, hk⟩ := hd
      have hdelta : delta = s'.events := by simpa [LexState.init] using hev.symm
      subst hdelta
      simp only [LexOut.state]
      apply delim_filter_nil
      intro k
      obtain ⟨hs, hc, ho⟩ := hk k
      have hbal3 : (balK .paren s'.events 0 = true ∧ balK .brace s'.events 0 = true) ∧
          balK .bracket s'.events 0 = true := by
        have := hbal
        rw [hout] at this
        simpa [balancedAll, Bool.and_eq_true, LexOut.state, and_assoc] using this
      have hrun : stackRun k s'.events (delimStack k (LexState.init src)) = ([], 0) := by
        have hstack : delimStack k (LexState.init src) = [] := by
          rcases k <;> rfl
        rw [hstack]
        rcases k with _ | _ | _
        · exact bal_stackRun .paren s'.events [] hbal3.1.1
        · exact bal_stackRun .brace s'.events [] hbal3.1.2
        · exact bal_stackRun .bracket s'.events [] hbal3.2
      constructor
      · rw [hc, hrun]
        simp [LexState.init, closingCount]
      · rw [ho]
        simp [LexState.init, openingCount]
  · intro st hp hs
    unfold collect_symbol
    dsimp only
    rw [LexState.advance_fst, hp]
    simp [LexState.recordEvent, hs]
  · intro st hp hs
    unfold collect_symbol
    dsimp only
    rw [LexState.advance_fst, hp]
    simp [LexState.recordEvent, hs]
  · intro st hp hs
    unfold collect_symbol
    dsimp only
    rw [LexState.advance_fst, hp]
    simp [LexState.recordEvent, hs]
  · intro st k pos
    have hmaps : (reportUnmatched st).1.diags = st.diags
        ++ st.parenStack.reverse.map (openingDiag .paren)
        ++ st.braceStack.reverse.map (openingDiag .brace)
        ++ st.bracketStack.reverse.map (openingDiag .bracket) := rfl
    rw [hmaps]
    simp only [List.count_append, List.map_reverse, List.count_reverse]
    rcases k <;> simp [delimStack, count_map_openingDiag, List.count_reverse]

/-- Claim C8, witness: the balanced input `"(1)\n"` lexes with no
delimiter diagnostics; a lone `')'` records one unmatched-closing error
at its position with the token omitted; reporting a state whose paren
stack holds one position emits exactly one unmatched-opening error
there. -/
theorem C8_witness :
    ((collect_tokens_loop 5 (LexState.init "(1)\n".toList) [] false).state.diags).filter
      isDelimDiag = [] ∧
    collect_symbol (LexState.init [')']) = (none,
      ((((LexState.init [')']).advance).2).recordEvent
        (.closer .paren ⟨0, 0⟩)).emit (.unmatchedRightParen ⟨0, 0⟩)) ∧
    ((reportUnmatched ⟨[], ⟨0, 3⟩, [⟨0, 1⟩], [], [], [], []⟩).1.diags).count
      (openingDiag .paren ⟨0, 1⟩) = 1 := by
  refine ⟨C8_delimiter_balance.1 5 "(1)\n".toList (by decide), ?_, ?_⟩
  · exact C8_delimiter_balance.2.1 (LexState.init [')']) rfl rfl
  · have h := C8_delimiter_balance.2.2.2.2 ⟨[], ⟨0, 3⟩, [⟨0, 1⟩], [], [], [], []⟩
      .paren ⟨0, 1⟩
    simpa using h
